import Mathlib

/-!
# Verification of the mqtt-core-service broker core

Shallow embedding of the broker's topic trie, QoS engine, session manager,
retained-message store, connection keep-alive sweep and packet codec,
translated from the TypeScript sources (`src/routing/qos-handler.ts`,
`src/session/session-manager.ts`, `src/protocol/serializer.ts`,
`src/storage/mongodb-storage.ts`, TCP connection manager), together with
proofs and refutations of the specified properties.

JavaScript strings are modelled as `List Char`; `Buffer` as `List Nat`;
JavaScript `Map` as an association list with `mapSet` (replace-in-place or
append, as `Map.prototype.set`), `mapGet` and `mapDelete`.  The QoS
handler's map key `clientId + ":" + packetId` is modelled as the pair
`(clientId, packetId)`; the encoding is injective because the decimal
digits of a packet id contain no colon, so the pair carries exactly the
same information.
-/

set_option linter.unusedVariables false

abbrev Str := List Char

/-- JavaScript `Map.prototype.get`: first entry with the key. -/
def mapGet {κ α : Type} [DecidableEq κ] (m : List (κ × α)) (k : κ) : Option α :=
  match m with
  | [] => none
  | (k', v) :: rest => if k' = k then some v else mapGet rest k

/-- JavaScript `Map.prototype.set`: replace the entry in place, else append. -/
def mapSet {κ α : Type} [DecidableEq κ] (m : List (κ × α)) (k : κ) (v : α) :
    List (κ × α) :=
  match m with
  | [] => [(k, v)]
  | (k', v') :: rest => if k' = k then (k, v) :: rest else (k', v') :: mapSet rest k v

/-- JavaScript `Map.prototype.delete` (the map after deletion). -/
def mapDelete {κ α : Type} [DecidableEq κ] (m : List (κ × α)) (k : κ) :
    List (κ × α) :=
  match m with
  | [] => []
  | (k', v') :: rest => if k' = k then rest else (k', v') :: mapDelete rest k

/-- JavaScript `String.prototype.split('/')`; `"".split('/')` is `[""]`. -/
def jsSplit : Str → List Str
  | [] => [[]]
  | c :: rest =>
    match jsSplit rest with
    | [] => [[]]
    | l :: ls => if c = '/' then [] :: l :: ls else (c :: l) :: ls

/-- Join topic levels with `'/'`, the inverse of `jsSplit`. -/
def jsJoin : List Str → Str
  | [] => []
  | [l] => l
  | l :: ls => l ++ '/' :: jsJoin ls

/-- `src/types`: `QoSLevel` is the numeric enum {0, 1, 2}; modelled as `Nat`. -/
abbrev QoSLevel := Nat

/-- `src/types`: the `Message` interface (`Buffer` payload as `List Nat`). -/
structure Message where
  id : Str
  topic : Str
  payload : List Nat
  qos : QoSLevel
  retain : Bool
  timestamp : Nat
  publisherId : Str
  packetId : Option Nat := none
  dup : Option Bool := none
  deriving DecidableEq, Repr

/-- `src/types`: the `Subscription` interface. -/
structure Subscription where
  clientId : Str
  topicFilter : Str
  qos : QoSLevel
  subscriptionTime : Nat
  deriving DecidableEq, Repr

/-! ## Topic trie (`src/routing/qos-handler.ts`, class `TopicTrie`) -/

/-- `TrieNode`: subscriptions keyed by client id, exact children keyed by
level, optional `+` child, optional `#` child. -/
inductive TrieNode : Type where
  | mk : List (Str × Subscription) → List (Str × TrieNode) →
         Option TrieNode → Option TrieNode → TrieNode

def TrieNode.subs : TrieNode → List (Str × Subscription)
  | .mk s _ _ _ => s

def TrieNode.children : TrieNode → List (Str × TrieNode)
  | .mk _ c _ _ => c

def TrieNode.single : TrieNode → Option TrieNode
  | .mk _ _ sw _ => sw

def TrieNode.multi : TrieNode → Option TrieNode
  | .mk _ _ _ mw => mw

/-- `TopicTrie.createNode`. -/
def createNode : TrieNode := .mk [] [] none none

/-- `TopicTrie.splitTopic`: `''` maps to `['']`, else `topic.split('/')`
(JS `split` already sends `""` to `[""]`, so this equals `jsSplit`). -/
def splitTopic (topic : Str) : List Str :=
  if topic = [] then [[]] else jsSplit topic

/-- `TopicTrie.insertSubscription` (recursion on the filter levels). -/
def insertSubscription (n : TrieNode) (levels : List Str) (index : Nat)
    (subscription : Subscription) : TrieNode :=
  match levels, n with
  | [], .mk subs ch sw mw =>
      .mk (mapSet subs subscription.clientId subscription) ch sw mw
  | level :: rest, .mk subs ch sw mw =>
      if level = ['+'] then
        .mk subs ch
          (some (insertSubscription (sw.getD createNode) rest (index + 1) subscription)) mw
      else if level = ['#'] then
        match mw.getD createNode with
        | .mk msubs mch msw mmw =>
            .mk subs ch sw
              (some (.mk (mapSet msubs subscription.clientId subscription) mch msw mmw))
      else
        .mk subs
          (mapSet ch level
            (insertSubscription ((mapGet ch level).getD createNode) rest (index + 1)
              subscription))
          sw mw

/-- `TopicTrie.addSubscription`; `Date.now()` is the `time` input. -/
def addSubscription (root : TrieNode) (topicFilter clientId : Str)
    (qos : QoSLevel) (time : Nat) : TrieNode :=
  insertSubscription root (splitTopic topicFilter) 0
    ⟨clientId, topicFilter, qos, time⟩

/-- `TopicTrie.isNodeEmpty`. -/
def isNodeEmpty : TrieNode → Bool
  | .mk subs ch sw mw => subs.isEmpty && ch.isEmpty && sw.isNone && mw.isNone

/-- `TopicTrie.removeSubscriptionRecursive`: the updated node paired with
the `childRemoved` boolean returned by the source. -/
def removeSubscriptionRecursive (n : TrieNode) (levels : List Str) (index : Nat)
    (clientId : Str) : TrieNode × Bool :=
  match levels, n with
  | [], .mk subs ch sw mw =>
      (.mk (mapDelete subs clientId) ch sw mw, (mapGet subs clientId).isSome)
  | level :: rest, .mk subs ch sw mw =>
      if level = ['+'] then
        match sw with
        | none => (.mk subs ch sw mw, false)
        | some c =>
            let r := removeSubscriptionRecursive c rest (index + 1) clientId
            if r.2 && isNodeEmpty r.1 then (.mk subs ch none mw, true)
            else (.mk subs ch (some r.1) mw, r.2)
      else if level = ['#'] then
        match mw with
        | none => (.mk subs ch sw mw, false)
        | some (.mk msubs mch msw mmw) =>
            let removed := (mapGet msubs clientId).isSome
            let m := TrieNode.mk (mapDelete msubs clientId) mch msw mmw
            if removed && isNodeEmpty m then (.mk subs ch sw none, true)
            else (.mk subs ch sw (some m), removed)
      else
        match mapGet ch level with
        | none => (.mk subs ch sw mw, false)
        | some c =>
            let r := removeSubscriptionRecursive c rest (index + 1) clientId
            if r.2 && isNodeEmpty r.1 then (.mk subs (mapDelete ch level) sw mw, true)
            else (.mk subs (mapSet ch level r.1) sw mw, r.2)

/-- `TopicTrie.removeSubscription`. -/
def removeSubscription (root : TrieNode) (topicFilter clientId : Str) : TrieNode :=
  (removeSubscriptionRecursive root (splitTopic topicFilter) 0 clientId).1

/-- `TopicTrie.findSubscribersRecursive`: multi-wildcard subscriptions are
collected first, then the exact child, then the `+` child; at the end of
the topic the node's terminal subscriptions are added. -/
def findSubscribersRecursive (n : TrieNode) (levels : List Str) (index : Nat) :
    List Subscription :=
  let multiSubs : List Subscription :=
    match n.multi with
    | some m => m.subs.map Prod.snd
    | none => []
  match levels with
  | [] => multiSubs ++ n.subs.map Prod.snd
  | level :: rest =>
      multiSubs
        ++ (match mapGet n.children level with
            | some c => findSubscribersRecursive c rest (index + 1)
            | none => [])
        ++ (match n.single with
            | some c => findSubscribersRecursive c rest (index + 1)
            | none => [])

/-- The deduplication loop of `TopicTrie.findSubscribers`: keep, per
client, the subscription with the highest granted qos seen so far. -/
def dedupHighest (subscribers : List Subscription) : List (Str × Subscription) :=
  subscribers.foldl
    (fun acc s =>
      match mapGet acc s.clientId with
      | none => mapSet acc s.clientId s
      | some existing => if s.qos > existing.qos then mapSet acc s.clientId s else acc)
    []

/-- `TopicTrie.findSubscribers`. -/
def findSubscribers (root : TrieNode) (topic : Str) : List Subscription :=
  (dedupHighest (findSubscribersRecursive root (splitTopic topic) 0)).map Prod.snd

/-- `TopicTrie.validateTopicFilter` inner loop (index ↦ tail recursion). -/
def validLevels : List Str → Bool
  | [] => true
  | level :: rest =>
      if level = ['#'] then rest.isEmpty
      else if level = ['+'] then validLevels rest
      else if level.contains '+' || level.contains '#' then false
      else validLevels rest

/-- `TopicTrie.validateTopicFilter`. -/
def validateTopicFilter (topicFilter : Str) : Bool :=
  if topicFilter.length = 0 then false else validLevels (jsSplit topicFilter)

/-! ## Message router (`src/routing/qos-handler.ts`, class `MessageRouter`) -/

/-- The while loop of `MessageRouter.topicMatches` (both indices advance
together, so it is recursion on the two level lists). -/
def topicMatchesLoop : List Str → List Str → Bool
  | filterLevel :: fRest, topicLevel :: tRest =>
      if filterLevel = ['#'] then true
      else if filterLevel = ['+'] then topicMatchesLoop fRest tRest
      else if filterLevel = topicLevel then topicMatchesLoop fRest tRest
      else false
  | [], tRest => tRest.isEmpty
  | filterLevel :: fRest, [] => fRest.isEmpty && filterLevel = ['#']

/-- `MessageRouter.topicMatches`. -/
def topicMatches (topicFilter topic : Str) : Bool :=
  topicMatchesLoop (jsSplit topicFilter) (jsSplit topic)

/-- Retained-message handling inside `MessageRouter.routeMessage`: an empty
retained payload deletes the entry, a non-empty one stores a copy. -/
def routeRetained (retained : List (Str × Message)) (message : Message) :
    List (Str × Message) :=
  if message.retain then
    if message.payload.length = 0 then mapDelete retained message.topic
    else mapSet retained message.topic message
  else retained

/-- `MessageRouter.getRetainedMessage`. -/
def getRetainedMessage (retained : List (Str × Message)) (topic : Str) :
    Option Message :=
  mapGet retained topic

/-- `MessageRouter.deleteRetainedMessage`. -/
def deleteRetainedMessage (retained : List (Str × Message)) (topic : Str) :
    List (Str × Message) :=
  mapDelete retained topic

/-- One retained-store mutation: a routed publish, an explicit delete, or
`clearAllRetainedMessages`. -/
inductive RetainedMutation : Type where
  | route (message : Message)
  | del (topic : Str)
  | clearAll
  deriving Repr

def applyRetainedMutation (retained : List (Str × Message)) :
    RetainedMutation → List (Str × Message)
  | .route message => routeRetained retained message
  | .del topic => deleteRetainedMessage retained topic
  | .clearAll => []

/-- The retained store after a sequence of mutations, from the empty map. -/
def runRetained (ops : List RetainedMutation) : List (Str × Message) :=
  ops.foldl applyRetainedMutation []

/-- `MessageRouter.validatePublishTopic`. -/
def validatePublishTopic (topic : Str) : Bool :=
  !topic.contains '+' && !topic.contains '#' && topic.length > 0

/-! ## QoS handler (`src/routing/qos-handler.ts`, class `QoSHandler`) -/

/-- `InflightMessage` (the `clientId:packetId` key is split off into the
map key). -/
structure InflightMessage where
  message : Message
  clientId : Str
  timestamp : Nat
  retryCount : Nat
  deriving DecidableEq, Repr

/-- The three state maps of `QoSHandler`, keyed by `(clientId, packetId)`
(the source's `clientId + ":" + packetId` string, an injective encoding). -/
structure QoSHandlerState where
  inflightQoS1 : List ((Str × Nat) × InflightMessage)
  inflightQoS2 : List ((Str × Nat) × InflightMessage)
  qos2Received : List ((Str × Nat) × Message)
  deriving DecidableEq, Repr

def QoSHandlerState.empty : QoSHandlerState := ⟨[], [], []⟩

/-- The events the `QoSHandler` emits (`this.emit(...)` calls).
`closeClient` is the connection layer's close action; the QoS handler
never emits it. -/
inductive QoSEvent : Type where
  | deliverMessage (clientId : Str) (message : Message)
  | sendPubrec (clientId : Str) (packetId : Nat)
  | sendPubrel (clientId : Str) (packetId : Nat)
  | sendPubcomp (clientId : Str) (packetId : Nat)
  | pubackReceived (clientId : Str) (packetId : Nat)
  | qos2FlowStep (clientId : Str) (packetId : Nat) (step : Str)
  | messageReceived (clientId : Str) (message : Message)
  | messageDeliveryFailed (clientId : Str) (message : Message) (reason : Str)
  | messageRetried (clientId : Str) (message : Message) (retryCount : Nat)
  | closeClient (clientId : Str)
  deriving DecidableEq, Repr

/-- `QoSHandler` retry configuration: `retryTimeoutMs = 5000`. -/
def retryTimeoutMs : Nat := 5000

/-- `QoSHandler` retry configuration: `maxRetries = 3`. -/
def maxRetries : Nat := 3

/-- The acknowledgment packet types accepted by `handleAcknowledgment`. -/
inductive AckKind : Type where
  | puback | pubrec | pubrel | pubcomp
  deriving DecidableEq, Repr

/-- `QoSHandler.handleAcknowledgment`: new state plus emitted events. -/
def handleAcknowledgment (s : QoSHandlerState) (packetId : Nat) (clientId : Str)
    (kind : AckKind) : QoSHandlerState × List QoSEvent :=
  let inflightKey := (clientId, packetId)
  match kind with
  | .puback =>
      if (mapGet s.inflightQoS1 inflightKey).isSome then
        ({ s with inflightQoS1 := mapDelete s.inflightQoS1 inflightKey },
         [.pubackReceived clientId packetId])
      else (s, [])
  | .pubrec =>
      if (mapGet s.inflightQoS2 inflightKey).isSome then
        (s, [.qos2FlowStep clientId packetId ['P','U','B','R','E','C']])
      else (s, [])
  | .pubrel =>
      if (mapGet s.qos2Received inflightKey).isSome then
        ({ s with qos2Received := mapDelete s.qos2Received inflightKey },
         [.sendPubcomp clientId packetId])
      else (s, [])
  | .pubcomp =>
      if (mapGet s.inflightQoS2 inflightKey).isSome then
        ({ s with inflightQoS2 := mapDelete s.inflightQoS2 inflightKey },
         [.qos2FlowStep clientId packetId ['P','U','B','C','O','M','P']])
      else (s, [])

/-- `QoSHandler.handleQoS2Publish`: duplicate detection for inbound QoS 2. -/
def handleQoS2Publish (s : QoSHandlerState) (clientId : Str) (packetId : Nat)
    (message : Message) : QoSHandlerState × List QoSEvent :=
  let key := (clientId, packetId)
  if (mapGet s.qos2Received key).isSome then
    (s, [.sendPubrec clientId packetId])
  else
    ({ s with qos2Received := mapSet s.qos2Received key message },
     [.sendPubrec clientId packetId, .messageReceived clientId message])

/-- One inflight entry processed by `QoSHandler.retryInflightMessages`:
`none` when the entry is dropped, together with the emitted events. -/
def retryEntry (now : Nat) (key : Str × Nat) (inflight : InflightMessage) :
    Option ((Str × Nat) × InflightMessage) × List QoSEvent :=
  if now - inflight.timestamp > retryTimeoutMs then
    if inflight.retryCount ≥ maxRetries then
      (none,
       [.messageDeliveryFailed inflight.clientId inflight.message
          ['M','a','x',' ','r','e','t','r','i','e','s',' ',
           'e','x','c','e','e','d','e','d']])
    else
      let retried := { inflight with retryCount := inflight.retryCount + 1,
                                     timestamp := now }
      ((some (key, retried)),
       [.deliverMessage inflight.clientId { inflight.message with dup := some true },
        .messageRetried inflight.clientId inflight.message (inflight.retryCount + 1)])
  else (some (key, inflight), [])

/-- Fold `retryEntry` over one inflight map in iteration order. -/
def retryMap (now : Nat) (m : List ((Str × Nat) × InflightMessage)) :
    List ((Str × Nat) × InflightMessage) × List QoSEvent :=
  match m with
  | [] => ([], [])
  | (key, inflight) :: rest =>
      let head := retryEntry now key inflight
      let tail := retryMap now rest
      (head.1.toList ++ tail.1, head.2 ++ tail.2)

/-- `QoSHandler.retryInflightMessages`: sweep QoS 1 then QoS 2 inflight
maps. -/
def retryInflightMessages (s : QoSHandlerState) (now : Nat) :
    QoSHandlerState × List QoSEvent :=
  let r1 := retryMap now s.inflightQoS1
  let r2 := retryMap now s.inflightQoS2
  ({ s with inflightQoS1 := r1.1, inflightQoS2 := r2.1 }, r1.2 ++ r2.2)

/-! ## Session manager (`src/session/session-manager.ts`) -/

/-- `src/types`: the `Session` interface (fields used by the claims). -/
structure Session where
  clientId : Str
  cleanSession : Bool
  subscriptions : List (Str × QoSLevel)
  messageQueue : List Message
  keepAlive : Nat
  connected : Bool
  createdAt : Nat
  lastActivity : Nat
  inflightMessages : List (Nat × Message)
  nextPacketId : Nat
  deriving DecidableEq, Repr

/-- `SessionManager.createSession`: restore a persistent session or build
a fresh one; returns the session and the updated session map. -/
def createSession (sessions : List (Str × Session)) (clientId : Str)
    (cleanSession : Bool) (now : Nat) : Session × List (Str × Session) :=
  match mapGet sessions clientId with
  | some existing =>
      if !cleanSession then
        let restored := { existing with connected := true, lastActivity := now }
        (restored, mapSet sessions clientId restored)
      else
        let fresh : Session :=
          ⟨clientId, cleanSession, [], [], 60, true, now, now, [], 1⟩
        (fresh, mapSet sessions clientId fresh)
  | none =>
      let fresh : Session :=
        ⟨clientId, cleanSession, [], [], 60, true, now, now, [], 1⟩
      (fresh, mapSet sessions clientId fresh)

/-! ## CONNECT handling (`handleConnect` in the broker orchestrator,
`src/storage/mongodb-storage.ts` lines 692-743) -/

/-- The session-resolution and `sessionPresent` computation of
`handleConnect`, after protocol validation and authentication succeed and
with persistence disabled (the storage-restore branch is skipped): look up
the session, create one when absent or when `cleanSession` is set, then
compute `sessionPresent = !cleanSession && getSession(clientId) !== null`
over the *updated* session map.  Returns the `sessionPresent` flag sent in
the CONNACK and the new session map. -/
def connectSessionPresent (sessions : List (Str × Session)) (clientId : Str)
    (cleanSession : Bool) (now : Nat) : Bool × List (Str × Session) :=
  let looked := mapGet sessions clientId
  let resolved :=
    if looked.isNone || cleanSession then
      (createSession sessions clientId cleanSession now).2
    else sessions
  (!cleanSession && (mapGet resolved clientId).isSome, resolved)

/-! ## TCP connection manager (keep-alive sweep) -/

/-- `ClientConnection` (fields relevant to the keep-alive sweep). -/
structure ClientConnection where
  id : Str
  clientId : Str
  connectTime : Nat
  lastActivity : Nat
  keepAlive : Nat
  authenticated : Bool
  deriving DecidableEq, Repr

/-- `TCPConnectionManager.acceptConnection`: the freshly accepted
connection, before any CONNECT packet is processed. -/
def acceptConnection (connectionId : Str) (now : Nat) : ClientConnection :=
  ⟨connectionId, [], now, now, 60, false⟩

/-- The selection loop of `TCPConnectionManager.checkKeepAlive`: ids of
the connections to close, i.e. those with
`now - lastActivity > keepAlive * 1000 * 1.5`. -/
def checkKeepAlive (connections : List (Str × ClientConnection)) (now : Nat) :
    List Str :=
  (connections.filter
      (fun pr => decide (now - pr.2.lastActivity > pr.2.keepAlive * 1500))).map
    Prod.fst

/-! ## Packet codec (`src/protocol/serializer.ts`, class `MQTTParser`) -/

/-- A parsed MQTT packet. -/
structure MQTTPacket where
  type : Nat
  flags : Nat
  payload : List Nat
  remainingLength : Nat
  deriving DecidableEq, Repr

/-- The remaining-length do-while loop of `MQTTParser.parsePacket`:
consumes continuation bytes, failing on a missing byte or a fifth
length byte (`multiplier > 128^3`).  Returns the decoded length and the
bytes after it. -/
def parseRemainingLength : List Nat → Nat → Nat → Option (Nat × List Nat)
  | [], _, _ => none
  | b :: rest, multiplier, acc =>
      let acc' := acc + (b % 128) * multiplier
      if multiplier > 128 * 128 * 128 then none
      else if b / 128 % 2 = 1 then parseRemainingLength rest (multiplier * 128) acc'
      else some (acc', rest)

/-- `MQTTParser.parsePacket`: `data.length < offset + remainingLength`
rejects a buffer shorter than declared; `data.slice(offset, offset +
remainingLength)` truncates a longer one. -/
def parsePacket (data : List Nat) : Option MQTTPacket :=
  if data.length < 2 then none
  else
    match data with
    | [] => none
    | firstByte :: rest =>
        match parseRemainingLength rest 1 0 with
        | none => none
        | some (remainingLength, afterLength) =>
            if afterLength.length < remainingLength then none
            else some ⟨firstByte / 16, firstByte % 16,
                       afterLength.take remainingLength, remainingLength⟩

/-- `PacketType` enum values from `src/types`. -/
def ptCONNECT : Nat := 1
def ptCONNACK : Nat := 2
def ptPUBLISH : Nat := 3
def ptPUBACK : Nat := 4
def ptPUBREC : Nat := 5
def ptPUBREL : Nat := 6
def ptPUBCOMP : Nat := 7
def ptSUBSCRIBE : Nat := 8
def ptSUBACK : Nat := 9
def ptUNSUBACK : Nat := 11
def ptUNSUBSCRIBE : Nat := 10
def ptPINGREQ : Nat := 12
def ptPINGRESP : Nat := 13
def ptDISCONNECT : Nat := 14

/-- `MQTTParser.validatePacket` (the switch on the packet type). -/
def validatePacket (packet : MQTTPacket) : Bool :=
  if packet.type = ptCONNECT then packet.flags = 0
  else if packet.type = ptCONNACK then packet.flags = 0
  else if packet.type = ptPUBLISH then (packet.flags % 8) / 2 ≤ 2
  else if packet.type = ptPUBACK ∨ packet.type = ptPUBREC ∨
          packet.type = ptPUBREL ∨ packet.type = ptPUBCOMP then
    packet.flags = 0 ∨ (packet.type = ptPUBREL ∧ packet.flags = 2)
  else if packet.type = ptSUBSCRIBE then packet.flags = 2
  else if packet.type = ptSUBACK then packet.flags = 0
  else if packet.type = ptUNSUBSCRIBE then packet.flags = 2
  else if packet.type = ptUNSUBACK then packet.flags = 0
  else if packet.type = ptPINGREQ ∨ packet.type = ptPINGRESP ∨
          packet.type = ptDISCONNECT then packet.flags = 0
  else false

/-! ## Specification devices for the trie proofs

`Stored n p s` says subscription `s` is stored in trie `n` at filter path
`p` (the filter's level list, `'#'` always terminal);
`storedPathMatches p ls` is the matching discipline the trie's lookup
implements on stored paths; `normLevels` is the path actually used by
`insertSubscription`, which never reads levels after a `'#'`. -/

/-- The filter path under which `insertSubscription` stores a filter:
levels up to and including the first `'#'`. -/
def normLevels : List Str → List Str
  | [] => []
  | level :: rest => if level = ['#'] then [['#']] else level :: normLevels rest

/-- Matching of a stored filter path against topic levels. -/
def storedPathMatches : List Str → List Str → Bool
  | [], [] => true
  | [], _ :: _ => false
  | f :: _, [] => f = ['#']
  | f :: fs, t :: ts =>
      if f = ['#'] then true else (f = ['+'] || f = t) && storedPathMatches fs ts

/-- Subscription `s` is stored in the trie at filter path `p`. -/
inductive Stored : TrieNode → List Str → Subscription → Prop where
  | term (subs ch sw mw s) : s ∈ subs.map Prod.snd →
      Stored (.mk subs ch sw mw) [] s
  | hash (subs ch sw m s) : s ∈ m.subs.map Prod.snd →
      Stored (.mk subs ch sw (some m)) [['#']] s
  | plus (subs ch c mw p s) : Stored c p s →
      Stored (.mk subs ch (some c) mw) (['+'] :: p) s
  | lit (subs ch sw mw level c p s) : level ≠ ['+'] → level ≠ ['#'] →
      mapGet ch level = some c → Stored c p s →
      Stored (.mk subs ch sw mw) (level :: p) s

/-- Well-formed subscription map: keys are distinct and each key is its
subscription's client id (as maintained by `subscriptions.set(clientId,
subscription)`). -/
def WFsubs (subs : List (Str × Subscription)) : Prop :=
  (subs.map Prod.fst).Nodup ∧ ∀ pr ∈ subs, pr.1 = pr.2.clientId

/-- Well-formed trie: every subscription map in it is well-formed and the
child keys are distinct. -/
inductive WFtrie : TrieNode → Prop where
  | mk (subs ch sw mw) :
      WFsubs subs →
      (ch.map Prod.fst).Nodup →
      (∀ pr ∈ ch, WFtrie pr.2) →
      (∀ t, sw = some t → WFtrie t) →
      (∀ t, mw = some t → WFtrie t) →
      WFtrie (.mk subs ch sw mw)

/-- One subscription request: `(topicFilter, clientId, qos)`. -/
structure SubEntry where
  filter : Str
  client : Str
  qos : QoSLevel
  deriving DecidableEq, Repr

/-- The subscription object `addSubscription` builds for an entry. -/
def entrySub (e : SubEntry) (time : Nat) : Subscription :=
  ⟨e.client, e.filter, e.qos, time⟩

/-- The trie after inserting a list of subscription entries in order. -/
def buildTrie (entries : List SubEntry) (time : Nat) : TrieNode :=
  entries.foldl (fun n e => addSubscription n e.filter e.client e.qos time)
    createNode

/-! ## Association-map lemmas -/

theorem mapGet_mapSet {κ α : Type} [DecidableEq κ] (m : List (κ × α)) (k k' : κ)
    (v : α) :
    mapGet (mapSet m k v) k' = if k = k' then some v else mapGet m k' := by
  induction m with
  | nil => by_cases h : k = k' <;> simp [mapSet, mapGet, h]
  | cons pr rest ih =>
      obtain ⟨k₀, v₀⟩ := pr
      by_cases h₀ : k₀ = k
      · subst h₀
        by_cases h : k₀ = k' <;> simp [mapSet, mapGet, h]
      · by_cases h : k₀ = k'
        · subst h
          have : ¬ k = k₀ := fun hh => h₀ hh.symm
          simp [mapSet, mapGet, h₀, this]
        · simp [mapSet, mapGet, h₀, h, ih]

theorem mapSet_self {κ α : Type} [DecidableEq κ] (m : List (κ × α)) (k : κ)
    (v : α) (h : mapGet m k = some v) : mapSet m k v = m := by
  induction m with
  | nil => simp [mapGet] at h
  | cons pr rest ih =>
      obtain ⟨k₀, v₀⟩ := pr
      by_cases h₀ : k₀ = k
      · subst h₀
        simp [mapGet] at h
        simp [mapSet, h]
      · simp [mapGet, h₀] at h
        simp [mapSet, h₀, ih h]

theorem mapDelete_of_not_mem {κ α : Type} [DecidableEq κ] (m : List (κ × α))
    (k : κ) (h : mapGet m k = none) : mapDelete m k = m := by
  induction m with
  | nil => simp [mapDelete]
  | cons pr rest ih =>
      obtain ⟨k₀, v₀⟩ := pr
      by_cases h₀ : k₀ = k
      · simp [mapGet, h₀] at h
      · simp [mapGet, h₀] at h
        simp [mapDelete, h₀, ih h]

theorem mapDelete_sublist {κ α : Type} [DecidableEq κ] (m : List (κ × α))
    (k : κ) : (mapDelete m k).Sublist m := by
  induction m with
  | nil => simp [mapDelete]
  | cons pr rest ih =>
      obtain ⟨k₀, v₀⟩ := pr
      by_cases h₀ : k₀ = k
      · rw [show mapDelete ((k₀, v₀) :: rest) k = rest from by simp [mapDelete, h₀]]
        exact List.sublist_cons_self _ _
      · rw [show mapDelete ((k₀, v₀) :: rest) k = (k₀, v₀) :: mapDelete rest k from by
          simp [mapDelete, h₀]]
        exact ih.cons₂ (k₀, v₀)

theorem mem_mapSet {κ α : Type} [DecidableEq κ] {m : List (κ × α)} {k : κ}
    {v : α} {pr : κ × α} (h : pr ∈ mapSet m k v) : pr = (k, v) ∨ pr ∈ m := by
  induction m with
  | nil => simpa [mapSet] using h
  | cons hd rest ih =>
      obtain ⟨k₀, v₀⟩ := hd
      by_cases h₀ : k₀ = k
      · simp [mapSet, h₀] at h
        rcases h with h | h
        · exact Or.inl (by simp [h])
        · exact Or.inr (List.mem_cons_of_mem _ h)
      · simp [mapSet, h₀] at h
        rcases h with h | h
        · exact Or.inr (by simp [h])
        · rcases ih h with h' | h'
          · exact Or.inl h'
          · exact Or.inr (List.mem_cons_of_mem _ h')

theorem keys_mapSet {κ α : Type} [DecidableEq κ] (m : List (κ × α)) (k : κ)
    (v : α) :
    (mapSet m k v).map Prod.fst =
      if k ∈ m.map Prod.fst then m.map Prod.fst else m.map Prod.fst ++ [k] := by
  induction m with
  | nil => simp [mapSet]
  | cons pr rest ih =>
      obtain ⟨k₀, v₀⟩ := pr
      by_cases h₀ : k₀ = k
      · simp [mapSet, h₀]
      · have : ¬ k = k₀ := fun hh => h₀ hh.symm
        by_cases hk : k ∈ rest.map Prod.fst <;>
          simp [mapSet, h₀, this, hk, ih]

theorem nodup_keys_mapSet {κ α : Type} [DecidableEq κ] (m : List (κ × α))
    (k : κ) (v : α) (h : (m.map Prod.fst).Nodup) :
    ((mapSet m k v).map Prod.fst).Nodup := by
  rw [keys_mapSet]
  split
  · exact h
  · rename_i hk
    refine h.append (List.nodup_singleton k) ?_
    intro x hx hx'
    rw [List.mem_singleton] at hx'
    exact hk (hx' ▸ hx)

theorem mapGet_eq_none_iff {κ α : Type} [DecidableEq κ] (m : List (κ × α))
    (k : κ) : mapGet m k = none ↔ k ∉ m.map Prod.fst := by
  induction m with
  | nil => simp [mapGet]
  | cons pr rest ih =>
      obtain ⟨k₀, v₀⟩ := pr
      by_cases h₀ : k₀ = k
      · simp [mapGet, h₀]
      · have hne : ¬ k = k₀ := fun hh => h₀ hh.symm
        simp only [mapGet, h₀, if_false, List.map_cons, List.mem_cons]
        rw [ih]
        tauto

theorem mapGet_mem {κ α : Type} [DecidableEq κ] {m : List (κ × α)} {k : κ}
    {v : α} (h : mapGet m k = some v) : (k, v) ∈ m := by
  induction m with
  | nil => simp [mapGet] at h
  | cons pr rest ih =>
      obtain ⟨k₀, v₀⟩ := pr
      by_cases h₀ : k₀ = k
      · subst h₀
        simp [mapGet] at h
        simp [h]
      · simp [mapGet, h₀] at h
        exact List.mem_cons_of_mem _ (ih h)

theorem mem_keys_of_mem {κ α : Type} [DecidableEq κ] {m : List (κ × α)}
    {pr : κ × α} (h : pr ∈ m) : pr.1 ∈ m.map Prod.fst :=
  List.mem_map_of_mem Prod.fst h

theorem mapGet_isSome_of_mem {κ α : Type} [DecidableEq κ] {m : List (κ × α)}
    {pr : κ × α} (h : pr ∈ m) : (mapGet m pr.1).isSome := by
  induction m with
  | nil => simp at h
  | cons hd rest ih =>
      obtain ⟨k₀, v₀⟩ := hd
      rcases List.mem_cons.mp h with h' | h'
      · subst h'
        simp [mapGet]
      · by_cases h₀ : k₀ = pr.1
        · simp [mapGet, h₀]
        · simpa [mapGet, h₀] using ih h'

theorem mapGet_mapDelete_self {κ α : Type} [DecidableEq κ] (m : List (κ × α))
    (k : κ) (h : (m.map Prod.fst).Nodup) : mapGet (mapDelete m k) k = none := by
  induction m with
  | nil => simp [mapDelete, mapGet]
  | cons pr rest ih =>
      obtain ⟨k₀, v₀⟩ := pr
      simp only [List.map_cons, List.nodup_cons] at h
      by_cases h₀ : k₀ = k
      · subst h₀
        rw [mapGet_eq_none_iff]
        simpa [mapDelete] using h.1
      · simp [mapDelete, mapGet, h₀, ih h.2]

theorem mapGet_mapDelete_ne {κ α : Type} [DecidableEq κ] (m : List (κ × α))
    (k k' : κ) (h : k' ≠ k) : mapGet (mapDelete m k) k' = mapGet m k' := by
  induction m with
  | nil => simp [mapDelete]
  | cons pr rest ih =>
      obtain ⟨k₀, v₀⟩ := pr
      by_cases h₀ : k₀ = k
      · subst h₀
        have hne : ¬ k₀ = k' := fun hh => h hh.symm
        simp [mapDelete, mapGet, hne]
      · simp [mapDelete, mapGet, h₀, ih]

/-! ## Subscription-map (values) lemmas under well-formedness -/

theorem WFsubs_nil : WFsubs [] := ⟨List.nodup_nil, by simp⟩

theorem WFsubs_cons {pr : Str × Subscription} {rest : List (Str × Subscription)}
    (h : WFsubs (pr :: rest)) :
    pr.1 = pr.2.clientId ∧ pr.1 ∉ rest.map Prod.fst ∧ WFsubs rest := by
  obtain ⟨hnd, hcid⟩ := h
  simp only [List.map_cons, List.nodup_cons] at hnd
  exact ⟨hcid pr (List.mem_cons_self _ _), hnd.1,
    hnd.2, fun q hq => hcid q (List.mem_cons_of_mem _ hq)⟩

theorem mem_values_clientId_key {m : List (Str × Subscription)} (hwf : WFsubs m)
    {x : Subscription} (hx : x ∈ m.map Prod.snd) : (x.clientId, x) ∈ m := by
  rcases List.mem_map.mp hx with ⟨pr, hmem, hsnd⟩
  have := hwf.2 pr hmem
  rw [← hsnd, ← this]
  exact hmem

theorem mem_values_mapSet {m : List (Str × Subscription)} (hwf : WFsubs m)
    (s x : Subscription) :
    x ∈ (mapSet m s.clientId s).map Prod.snd ↔
      x = s ∨ (x ∈ m.map Prod.snd ∧ x.clientId ≠ s.clientId) := by
  induction m with
  | nil =>
      constructor
      · intro h; simp [mapSet] at h; exact Or.inl h
      · rintro (h | ⟨h, _⟩)
        · simp [mapSet, h]
        · simp at h
  | cons pr rest ih =>
      obtain ⟨k₀, v₀⟩ := pr
      obtain ⟨hk₀, hnot, hrest⟩ := WFsubs_cons hwf
      simp only at hk₀
      by_cases h₀ : k₀ = s.clientId
      · have hset : mapSet ((k₀, v₀) :: rest) s.clientId s = (s.clientId, s) :: rest := by
          simp [mapSet, h₀]
        rw [hset]
        simp only [List.map_cons, List.mem_cons]
        constructor
        · rintro (h | h)
          · exact Or.inl h
          · right
            refine ⟨Or.inr h, ?_⟩
            rcases List.mem_map.mp h with ⟨q, hq, hqs⟩
            have hq1 : q.1 = q.2.clientId := hrest.2 q hq
            intro heq
            apply hnot
            have hk : (k₀, v₀).1 = q.1 := by
              simp only [hq1, hqs, heq, h₀]
            rw [hk]
            exact List.mem_map_of_mem Prod.fst hq
        · rintro (h | ⟨h | h, hne⟩)
          · exact Or.inl h
          · exfalso; apply hne; rw [h, ← hk₀, h₀]
          · exact Or.inr h
      · have hset : mapSet ((k₀, v₀) :: rest) s.clientId s =
            (k₀, v₀) :: mapSet rest s.clientId s := by
          simp [mapSet, h₀]
        rw [hset]
        simp only [List.map_cons, List.mem_cons]
        rw [ih hrest]
        constructor
        · rintro (h | h | h)
          · right
            refine ⟨Or.inl h, ?_⟩
            intro heq
            exact h₀ (by rw [hk₀, ← h]; exact heq)
          · exact Or.inl h
          · exact Or.inr ⟨Or.inr h.1, h.2⟩
        · rintro (h | ⟨h | h, hne⟩)
          · exact Or.inr (Or.inl h)
          · exact Or.inl h
          · exact Or.inr (Or.inr ⟨h, hne⟩)

theorem mem_values_mapDelete {m : List (Str × Subscription)} (hwf : WFsubs m)
    (cid : Str) (x : Subscription) :
    x ∈ (mapDelete m cid).map Prod.snd ↔
      x ∈ m.map Prod.snd ∧ x.clientId ≠ cid := by
  induction m with
  | nil => simp [mapDelete]
  | cons pr rest ih =>
      obtain ⟨k₀, v₀⟩ := pr
      obtain ⟨hk₀, hnot, hrest⟩ := WFsubs_cons hwf
      simp only at hk₀
      by_cases h₀ : k₀ = cid
      · have hdel : mapDelete ((k₀, v₀) :: rest) cid = rest := by
          simp [mapDelete, h₀]
        rw [hdel]
        simp only [List.map_cons, List.mem_cons]
        constructor
        · intro h
          refine ⟨Or.inr h, ?_⟩
          rcases List.mem_map.mp h with ⟨q, hq, hqs⟩
          have hq1 : q.1 = q.2.clientId := hrest.2 q hq
          intro heq
          apply hnot
          have hk : (k₀, v₀).1 = q.1 := by
            simp only [hq1, hqs, heq, h₀]
          rw [hk]
          exact List.mem_map_of_mem Prod.fst hq
        · rintro ⟨h | h, hne⟩
          · exfalso; apply hne; rw [h, ← hk₀, h₀]
          · exact h
      · have hdel : mapDelete ((k₀, v₀) :: rest) cid =
            (k₀, v₀) :: mapDelete rest cid := by
          simp [mapDelete, h₀]
        rw [hdel]
        simp only [List.map_cons, List.mem_cons]
        rw [ih hrest]
        constructor
        · rintro (h | h)
          · refine ⟨Or.inl h, ?_⟩
            intro heq
            exact h₀ (by rw [hk₀, ← h]; exact heq)
          · exact ⟨Or.inr h.1, h.2⟩
        · rintro ⟨h | h, hne⟩
          · exact Or.inl h
          · exact Or.inr ⟨h, hne⟩

theorem WFsubs_mapSet {m : List (Str × Subscription)} (hwf : WFsubs m)
    (s : Subscription) : WFsubs (mapSet m s.clientId s) := by
  refine ⟨nodup_keys_mapSet m s.clientId s hwf.1, ?_⟩
  intro pr hpr
  rcases mem_mapSet hpr with h | h
  · rw [h]
  · exact hwf.2 pr h

theorem WFsubs_mapDelete {m : List (Str × Subscription)} (hwf : WFsubs m)
    (cid : Str) : WFsubs (mapDelete m cid) := by
  refine ⟨((mapDelete_sublist m cid).map Prod.fst).nodup hwf.1, ?_⟩
  intro pr hpr
  exact hwf.2 pr ((mapDelete_sublist m cid).mem hpr)

theorem mapGet_isSome_iff_values {m : List (Str × Subscription)} (hwf : WFsubs m)
    (cid : Str) :
    (mapGet m cid).isSome ↔ ∃ x ∈ m.map Prod.snd, x.clientId = cid := by
  constructor
  · intro h
    rcases Option.isSome_iff_exists.mp h with ⟨v, hv⟩
    refine ⟨v, List.mem_map_of_mem Prod.snd (mapGet_mem hv), ?_⟩
    have := hwf.2 _ (mapGet_mem hv)
    exact this.symm
  · rintro ⟨x, hx, hcid⟩
    have := mapGet_isSome_of_mem (mem_values_clientId_key hwf hx)
    rwa [hcid] at this

/-! ## Splitting lemmas -/

theorem jsSplit_ne_nil (s : Str) : jsSplit s ≠ [] := by
  cases s with
  | nil => simp [jsSplit]
  | cons c rest =>
      simp only [jsSplit]
      rcases h : jsSplit rest with _ | ⟨l, ls⟩
      · simp
      · by_cases hc : c = '/' <;> simp [hc]

theorem jsJoin_cons_cons (c : Char) (l : Str) (ls : List Str) :
    jsJoin ((c :: l) :: ls) = c :: jsJoin (l :: ls) := by
  cases ls <;> simp [jsJoin]

theorem jsJoin_cons_of_ne_nil (l : Str) (ls : List Str) (h : ls ≠ []) :
    jsJoin (l :: ls) = l ++ '/' :: jsJoin ls := by
  cases ls with
  | nil => exact absurd rfl h
  | cons b rest => rfl

theorem jsSplit_cons_step (c : Char) (rest : Str) (l : Str) (ls : List Str)
    (h : jsSplit rest = l :: ls) :
    jsSplit (c :: rest) = if c = '/' then [] :: l :: ls else (c :: l) :: ls := by
  simp only [jsSplit]
  rw [h]

theorem jsJoin_jsSplit (s : Str) : jsJoin (jsSplit s) = s := by
  induction s with
  | nil => simp [jsSplit, jsJoin]
  | cons c rest ih =>
      rcases h : jsSplit rest with _ | ⟨l, ls⟩
      · exact absurd h (jsSplit_ne_nil rest)
      · rw [h] at ih
        rw [jsSplit_cons_step c rest l ls h]
        by_cases hc : c = '/'
        · rw [if_pos hc, jsJoin_cons_of_ne_nil [] (l :: ls) (by simp), ih, hc]
          rfl
        · rw [if_neg hc, jsJoin_cons_cons, ih]

theorem jsSplit_injective {s t : Str} (h : jsSplit s = jsSplit t) : s = t := by
  rw [← jsJoin_jsSplit s, ← jsJoin_jsSplit t, h]

theorem splitTopic_eq_jsSplit (t : Str) : splitTopic t = jsSplit t := by
  unfold splitTopic
  split
  · rename_i h
    rw [h]
    rfl
  · rfl

theorem mem_jsSplit_chars {t : Str} :
    ∀ {l : Str}, l ∈ jsSplit t → ∀ {c : Char}, c ∈ l → c ∈ t := by
  induction t with
  | nil =>
      intro l hmem c hc
      rw [show jsSplit [] = [[]] from rfl, List.mem_singleton] at hmem
      subst hmem
      simp at hc
  | cons c₀ rest ih =>
      intro l hmem c hc
      rcases h : jsSplit rest with _ | ⟨l₀, ls⟩
      · exact absurd h (jsSplit_ne_nil rest)
      · rw [jsSplit_cons_step c₀ rest l₀ ls h] at hmem
        by_cases hc₀ : c₀ = '/'
        · rw [if_pos hc₀] at hmem
          rcases List.mem_cons.mp hmem with hmem | hmem
          · subst hmem; simp at hc
          · exact List.mem_cons_of_mem _ (ih (by rw [h]; exact hmem) hc)
        · rw [if_neg hc₀] at hmem
          rcases List.mem_cons.mp hmem with hmem | hmem
          · subst hmem
            rcases List.mem_cons.mp hc with hcc | hcc
            · exact hcc ▸ List.mem_cons_self _ _
            · exact List.mem_cons_of_mem _
                (ih (by rw [h]; exact List.mem_cons_self l₀ ls) hcc)
          · exact List.mem_cons_of_mem _
              (ih (by rw [h]; exact List.mem_cons_of_mem l₀ hmem) hc)

/-- A wildcard-free topic (in the sense of `validatePublishTopic`) splits
into levels none of which is a wildcard level. -/
theorem levels_not_wildcard {t : Str} (hv : validatePublishTopic t = true) :
    ∀ l ∈ jsSplit t, l ≠ ['+'] ∧ l ≠ ['#'] := by
  intro l hl
  simp only [validatePublishTopic, Bool.and_eq_true, Bool.not_eq_true'] at hv
  have hplus : '+' ∉ t := by
    have := hv.1.1
    simpa using this
  have hhash : '#' ∉ t := by
    have := hv.1.2
    simpa using this
  constructor
  · intro heq
    exact hplus (mem_jsSplit_chars hl (by rw [heq]; simp))
  · intro heq
    exact hhash (mem_jsSplit_chars hl (by rw [heq]; simp))

/-! ## Trie step equations and the shape of `Stored` -/

theorem insertSubscription_nil (subs : List (Str × Subscription))
    (ch : List (Str × TrieNode)) (sw mw : Option TrieNode) (i : Nat)
    (sub : Subscription) :
    insertSubscription (.mk subs ch sw mw) [] i sub =
      .mk (mapSet subs sub.clientId sub) ch sw mw := rfl

theorem insertSubscription_plus (subs : List (Str × Subscription))
    (ch : List (Str × TrieNode)) (sw mw : Option TrieNode) (rest : List Str)
    (i : Nat) (sub : Subscription) :
    insertSubscription (.mk subs ch sw mw) (['+'] :: rest) i sub =
      .mk subs ch
        (some (insertSubscription (sw.getD createNode) rest (i + 1) sub)) mw := rfl

theorem insertSubscription_hash_none (subs : List (Str × Subscription))
    (ch : List (Str × TrieNode)) (sw : Option TrieNode) (rest : List Str)
    (i : Nat) (sub : Subscription) :
    insertSubscription (.mk subs ch sw none) (['#'] :: rest) i sub =
      .mk subs ch sw (some (.mk [(sub.clientId, sub)] [] none none)) := rfl

theorem insertSubscription_hash_some (subs msubs : List (Str × Subscription))
    (ch mch : List (Str × TrieNode)) (sw msw mmw : Option TrieNode)
    (rest : List Str) (i : Nat) (sub : Subscription) :
    insertSubscription (.mk subs ch sw (some (.mk msubs mch msw mmw)))
        (['#'] :: rest) i sub =
      .mk subs ch sw (some (.mk (mapSet msubs sub.clientId sub) mch msw mmw)) := rfl

theorem insertSubscription_lit (subs : List (Str × Subscription))
    (ch : List (Str × TrieNode)) (sw mw : Option TrieNode) (level : Str)
    (rest : List Str) (i : Nat) (sub : Subscription) (h1 : level ≠ ['+'])
    (h2 : level ≠ ['#']) :
    insertSubscription (.mk subs ch sw mw) (level :: rest) i sub =
      .mk subs
        (mapSet ch level
          (insertSubscription ((mapGet ch level).getD createNode) rest (i + 1) sub))
        sw mw := by
  simp only [insertSubscription, if_neg h1, if_neg h2]

theorem findRec_nil (n : TrieNode) (i : Nat) :
    findSubscribersRecursive n [] i =
      (match n.multi with
        | some m => m.subs.map Prod.snd
        | none => []) ++ n.subs.map Prod.snd := rfl

theorem findRec_cons (n : TrieNode) (level : Str) (rest : List Str) (i : Nat) :
    findSubscribersRecursive n (level :: rest) i =
      (match n.multi with
        | some m => m.subs.map Prod.snd
        | none => [])
      ++ (match mapGet n.children level with
          | some c => findSubscribersRecursive c rest (i + 1)
          | none => [])
      ++ (match n.single with
          | some c => findSubscribersRecursive c rest (i + 1)
          | none => []) := rfl

theorem Stored_iff (subs : List (Str × Subscription)) (ch : List (Str × TrieNode))
    (sw mw : Option TrieNode) (p : List Str) (x : Subscription) :
    Stored (.mk subs ch sw mw) p x ↔
      (p = [] ∧ x ∈ subs.map Prod.snd) ∨
      (p = [['#']] ∧ ∃ m, mw = some m ∧ x ∈ m.subs.map Prod.snd) ∨
      (∃ p', p = ['+'] :: p' ∧ ∃ c, sw = some c ∧ Stored c p' x) ∨
      (∃ level p', p = level :: p' ∧ level ≠ ['+'] ∧ level ≠ ['#'] ∧
        ∃ c, mapGet ch level = some c ∧ Stored c p' x) := by
  constructor
  · intro h
    cases h with
    | term _ _ _ _ _ hmem => exact Or.inl ⟨rfl, hmem⟩
    | hash _ _ _ m _ hmem => exact Or.inr (Or.inl ⟨rfl, m, rfl, hmem⟩)
    | plus _ _ c _ p' _ hst => exact Or.inr (Or.inr (Or.inl ⟨p', rfl, c, rfl, hst⟩))
    | lit _ _ _ _ level c p' _ h1 h2 hget hst =>
        exact Or.inr (Or.inr (Or.inr ⟨level, p', rfl, h1, h2, c, hget, hst⟩))
  · rintro (⟨rfl, hmem⟩ | ⟨rfl, m, rfl, hmem⟩ | ⟨p', rfl, c, rfl, hst⟩ |
      ⟨level, p', rfl, h1, h2, c, hget, hst⟩)
    · exact .term _ _ _ _ _ hmem
    · exact .hash _ _ _ _ _ hmem
    · exact .plus _ _ _ _ _ _ hst
    · exact .lit _ _ _ _ _ _ _ _ h1 h2 hget hst

theorem not_Stored_createNode (p : List Str) (x : Subscription) :
    ¬ Stored createNode p x := by
  intro h
  rw [show createNode = .mk [] [] none none from rfl, Stored_iff] at h
  rcases h with ⟨_, h⟩ | ⟨_, m, hm, _⟩ | ⟨p', _, c, hc, _⟩ |
    ⟨l, p', _, _, _, c, hget, _⟩
  · simp at h
  · cases hm
  · cases hc
  · simp [mapGet] at hget

theorem not_Stored_of_isNodeEmpty {n : TrieNode} (h : isNodeEmpty n = true)
    (p : List Str) (x : Subscription) : ¬ Stored n p x := by
  obtain ⟨subs, ch, sw, mw⟩ := n
  simp only [isNodeEmpty, Bool.and_eq_true, List.isEmpty_iff,
    Option.isNone_iff_eq_none] at h
  obtain ⟨⟨⟨h1, h2⟩, h3⟩, h4⟩ := h
  subst h1; subst h2; subst h3; subst h4
  exact not_Stored_createNode p x

theorem WFtrie_inv {subs : List (Str × Subscription)} {ch : List (Str × TrieNode)}
    {sw mw : Option TrieNode} (h : WFtrie (.mk subs ch sw mw)) :
    WFsubs subs ∧ (ch.map Prod.fst).Nodup ∧ (∀ pr ∈ ch, WFtrie pr.2) ∧
      (∀ t, sw = some t → WFtrie t) ∧ (∀ t, mw = some t → WFtrie t) := by
  cases h with
  | mk _ _ _ _ h1 h2 h3 h4 h5 => exact ⟨h1, h2, h3, h4, h5⟩

theorem WFtrie_createNode : WFtrie createNode :=
  .mk [] [] none none WFsubs_nil List.nodup_nil (by simp) (by simp) (by simp)

theorem WFtrie_insert (ls : List Str) (n : TrieNode) (hwf : WFtrie n) (i : Nat)
    (sub : Subscription) : WFtrie (insertSubscription n ls i sub) := by
  induction ls generalizing n i with
  | nil =>
      obtain ⟨subs, ch, sw, mw⟩ := n
      obtain ⟨h1, h2, h3, h4, h5⟩ := WFtrie_inv hwf
      rw [insertSubscription_nil]
      exact .mk _ _ _ _ (WFsubs_mapSet h1 sub) h2 h3 h4 h5
  | cons level rest ih =>
      obtain ⟨subs, ch, sw, mw⟩ := n
      obtain ⟨h1, h2, h3, h4, h5⟩ := WFtrie_inv hwf
      by_cases hp : level = ['+']
      · subst hp
        rw [insertSubscription_plus]
        refine .mk _ _ _ _ h1 h2 h3 ?_ h5
        intro t ht
        cases ht
        apply ih
        cases sw with
        | none => exact WFtrie_createNode
        | some s => exact h4 s rfl
      · by_cases hh : level = ['#']
        · subst hh
          cases mw with
          | none =>
              rw [insertSubscription_hash_none]
              refine .mk _ _ _ _ h1 h2 h3 h4 ?_
              intro t ht
              cases ht
              refine .mk _ _ _ _ ⟨by simp, ?_⟩ List.nodup_nil (by simp) (by simp)
                (by simp)
              intro pr hpr
              rw [List.mem_singleton] at hpr
              rw [hpr]
          | some m =>
              obtain ⟨msubs, mch, msw, mmw⟩ := m
              obtain ⟨m1, m2, m3, m4, m5⟩ := WFtrie_inv (h5 _ rfl)
              rw [insertSubscription_hash_some]
              refine .mk _ _ _ _ h1 h2 h3 h4 ?_
              intro t ht
              cases ht
              exact .mk _ _ _ _ (WFsubs_mapSet m1 sub) m2 m3 m4 m5
        · rw [insertSubscription_lit _ _ _ _ _ _ _ _ hp hh]
          refine .mk _ _ _ _ h1 (nodup_keys_mapSet ch level _ h2) ?_ h4 h5
          intro pr hpr
          rcases mem_mapSet hpr with hpr' | hpr'
          · rw [hpr']
            apply ih
            cases hg : mapGet ch level with
            | none => exact WFtrie_createNode
            | some c => exact h3 _ (mapGet_mem hg)
          · exact h3 pr hpr'

theorem Stored_nil_iff (subs : List (Str × Subscription))
    (ch : List (Str × TrieNode)) (sw mw : Option TrieNode) (x : Subscription) :
    Stored (.mk subs ch sw mw) [] x ↔ x ∈ subs.map Prod.snd := by
  rw [Stored_iff]
  constructor
  · rintro (⟨_, hmem⟩ | ⟨h, _⟩ | ⟨p', h, _⟩ | ⟨l, p', h, _⟩)
    · exact hmem
    · cases h
    · cases h
    · cases h
  · intro hmem
    exact Or.inl ⟨rfl, hmem⟩

theorem Stored_cons_iff (subs : List (Str × Subscription))
    (ch : List (Str × TrieNode)) (sw mw : Option TrieNode) (level : Str)
    (p : List Str) (x : Subscription) :
    Stored (.mk subs ch sw mw) (level :: p) x ↔
      (level = ['#'] ∧ p = [] ∧ ∃ m, mw = some m ∧ x ∈ m.subs.map Prod.snd) ∨
      (level = ['+'] ∧ ∃ c, sw = some c ∧ Stored c p x) ∨
      (level ≠ ['+'] ∧ level ≠ ['#'] ∧
        ∃ c, mapGet ch level = some c ∧ Stored c p x) := by
  rw [Stored_iff]
  constructor
  · rintro (⟨h, _⟩ | ⟨h, hm⟩ | ⟨p', h, hc⟩ | ⟨l, p', h, h1, h2, hc⟩)
    · cases h
    · injection h with hl hp
      exact Or.inl ⟨hl, hp, hm⟩
    · injection h with hl hp
      subst hp
      exact Or.inr (Or.inl ⟨hl, hc⟩)
    · injection h with hl hp
      subst hl; subst hp
      exact Or.inr (Or.inr ⟨h1, h2, hc⟩)
  · rintro (⟨hl, hp, hm⟩ | ⟨hl, hc⟩ | ⟨h1, h2, hc⟩)
    · subst hl; subst hp
      exact Or.inr (Or.inl ⟨rfl, hm⟩)
    · subst hl
      exact Or.inr (Or.inr (Or.inl ⟨p, rfl, hc⟩))
    · exact Or.inr (Or.inr (Or.inr ⟨level, p, rfl, h1, h2, hc⟩))

theorem Stored_insert (ls : List Str) (n : TrieNode) (hwf : WFtrie n) (i : Nat)
    (sub : Subscription) (p : List Str) (x : Subscription) :
    Stored (insertSubscription n ls i sub) p x ↔
      (p = normLevels ls ∧ x = sub) ∨
      (Stored n p x ∧ ¬(p = normLevels ls ∧ x.clientId = sub.clientId)) := by
  induction ls generalizing n i p with
  | nil =>
      obtain ⟨subs, ch, sw, mw⟩ := n
      obtain ⟨h1, _, _, _, _⟩ := WFtrie_inv hwf
      rw [insertSubscription_nil]
      rw [show normLevels [] = [] from rfl]
      cases p with
      | nil =>
          rw [Stored_nil_iff, Stored_nil_iff, mem_values_mapSet h1 sub x]
          constructor
          · rintro (h | ⟨h, hne⟩)
            · exact Or.inl ⟨rfl, h⟩
            · exact Or.inr ⟨h, by simp [hne]⟩
          · rintro (⟨_, h⟩ | ⟨h, hne⟩)
            · exact Or.inl h
            · exact Or.inr ⟨h, by simpa using hne⟩
      | cons level p' =>
          rw [Stored_cons_iff, Stored_cons_iff]
          have hne : ¬((level :: p' : List Str) = []) := by simp
          constructor
          · intro h
            exact Or.inr ⟨h, by simp⟩
          · rintro (⟨h, _⟩ | ⟨h, _⟩)
            · exact absurd h hne
            · exact h
  | cons level rest ih =>
      obtain ⟨subs, ch, sw, mw⟩ := n
      obtain ⟨h1, h2, h3, h4, h5⟩ := WFtrie_inv hwf
      by_cases hlp : level = ['+']
      · subst hlp
        rw [insertSubscription_plus,
          show normLevels (['+'] :: rest) = ['+'] :: normLevels rest from rfl]
        have hwfsw : WFtrie (sw.getD createNode) := by
          cases sw with
          | none => exact WFtrie_createNode
          | some c => exact h4 c rfl
        cases p with
        | nil =>
            rw [Stored_nil_iff, Stored_nil_iff]
            constructor
            · intro h
              exact Or.inr ⟨h, by simp⟩
            · rintro (⟨h, _⟩ | ⟨h, _⟩)
              · cases h
              · exact h
        | cons l' p' =>
            rw [Stored_cons_iff, Stored_cons_iff]
            constructor
            · rintro (⟨hl, hp, hm⟩ | ⟨hl, c, hc, hst⟩ | ⟨hn1, hn2, c, hget, hst⟩)
              · refine Or.inr ⟨Or.inl ⟨hl, hp, hm⟩, ?_⟩
                rintro ⟨heq, _⟩
                injection heq with heq1 _
                rw [hl] at heq1
                cases heq1
              · injection hc with hc
                rw [← hc] at hst
                rcases (ih _ hwfsw (i + 1) p').mp hst with ⟨hp', hx⟩ | ⟨hst', hside⟩
                · exact Or.inl ⟨by rw [hl, hp'], hx⟩
                · cases hsw : sw with
                  | none =>
                      rw [hsw] at hst'
                      exact absurd hst' (not_Stored_createNode _ _)
                  | some c₀ =>
                      rw [hsw] at hst'
                      refine Or.inr ⟨Or.inr (Or.inl ⟨hl, c₀, rfl, by simpa using hst'⟩), ?_⟩
                      rintro ⟨heq, hcid⟩
                      injection heq with _ heq2
                      exact hside ⟨heq2, hcid⟩
              · refine Or.inr ⟨Or.inr (Or.inr ⟨hn1, hn2, c, hget, hst⟩), ?_⟩
                rintro ⟨heq, _⟩
                injection heq with heq1 _
                exact hn1 heq1
            · rintro (⟨heq, hx⟩ | ⟨hst, hside⟩)
              · injection heq with heq1 heq2
                refine Or.inr (Or.inl ⟨heq1, insertSubscription (sw.getD createNode) rest (i+1) sub, rfl, ?_⟩)
                rw [(ih _ hwfsw (i + 1) p')]
                exact Or.inl ⟨heq2, hx⟩
              · rcases hst with ⟨hl, hp, hm⟩ | ⟨hl, c, hc, hst'⟩ | ⟨hn1, hn2, c, hget, hst'⟩
                · exact Or.inl ⟨hl, hp, hm⟩
                · refine Or.inr (Or.inl ⟨hl, _, rfl, ?_⟩)
                  rw [(ih _ hwfsw (i + 1) p')]
                  refine Or.inr ⟨?_, ?_⟩
                  · rw [hc]
                    simpa using hst'
                  · rintro ⟨heq2, hcid⟩
                    exact hside ⟨by rw [hl, heq2], hcid⟩
                · exact Or.inr (Or.inr ⟨hn1, hn2, c, hget, hst'⟩)
      · by_cases hlh : level = ['#']
        · subst hlh
          rw [show normLevels (['#'] :: rest) = [['#']] from rfl]
          cases mw with
          | none =>
              rw [insertSubscription_hash_none]
              cases p with
              | nil =>
                  rw [Stored_nil_iff, Stored_nil_iff]
                  constructor
                  · intro h
                    exact Or.inr ⟨h, by simp⟩
                  · rintro (⟨h, _⟩ | ⟨h, _⟩)
                    · cases h
                    · exact h
              | cons l' p' =>
                  rw [Stored_cons_iff, Stored_cons_iff]
                  constructor
                  · rintro (⟨hl, hp, m, hm, hmem⟩ | ⟨hl, c, hc, hst⟩ |
                      ⟨hn1, hn2, c, hget, hst⟩)
                    · injection hm with hm
                      rw [← hm] at hmem
                      simp only [TrieNode.subs, List.map_cons, List.map_nil,
                        List.mem_singleton] at hmem
                      exact Or.inl ⟨by rw [hl, hp], hmem⟩
                    · refine Or.inr ⟨Or.inr (Or.inl ⟨hl, c, hc, hst⟩), ?_⟩
                      rintro ⟨heq, _⟩
                      injection heq with heq1 _
                      rw [hl] at heq1
                      cases heq1
                    · refine Or.inr ⟨Or.inr (Or.inr ⟨hn1, hn2, c, hget, hst⟩), ?_⟩
                      rintro ⟨heq, _⟩
                      injection heq with heq1 _
                      exact hn2 heq1
                  · rintro (⟨heq, hx⟩ | ⟨hst, hside⟩)
                    · injection heq with heq1 heq2
                      refine Or.inl ⟨heq1, heq2, _, rfl, ?_⟩
                      simp [TrieNode.subs, hx]
                    · rcases hst with ⟨hl, hp, m, hm, hmem⟩ | ⟨hl, c, hc, hst'⟩ |
                        ⟨hn1, hn2, c, hget, hst'⟩
                      · cases hm
                      · exact Or.inr (Or.inl ⟨hl, c, hc, hst'⟩)
                      · exact Or.inr (Or.inr ⟨hn1, hn2, c, hget, hst'⟩)
          | some m =>
              obtain ⟨msubs, mch, msw, mmw⟩ := m
              have hwfm := WFtrie_inv (h5 _ rfl)
              rw [insertSubscription_hash_some]
              cases p with
              | nil =>
                  rw [Stored_nil_iff, Stored_nil_iff]
                  constructor
                  · intro h
                    exact Or.inr ⟨h, by simp⟩
                  · rintro (⟨h, _⟩ | ⟨h, _⟩)
                    · cases h
                    · exact h
              | cons l' p' =>
                  rw [Stored_cons_iff, Stored_cons_iff]
                  constructor
                  · rintro (⟨hl, hp, m', hm', hmem⟩ | ⟨hl, c, hc, hst⟩ |
                      ⟨hn1, hn2, c, hget, hst⟩)
                    · injection hm' with hm'
                      rw [← hm'] at hmem
                      simp only [TrieNode.subs] at hmem
                      rcases (mem_values_mapSet hwfm.1 sub x).mp hmem with h | ⟨h, hne⟩
                      · exact Or.inl ⟨by rw [hl, hp], h⟩
                      · refine Or.inr ⟨Or.inl ⟨hl, hp, ⟨msubs, mch, msw, mmw⟩, rfl, h⟩, ?_⟩
                        rintro ⟨_, hcid⟩
                        exact hne hcid
                    · refine Or.inr ⟨Or.inr (Or.inl ⟨hl, c, hc, hst⟩), ?_⟩
                      rintro ⟨heq, _⟩
                      injection heq with heq1 _
                      rw [hl] at heq1
                      cases heq1
                    · refine Or.inr ⟨Or.inr (Or.inr ⟨hn1, hn2, c, hget, hst⟩), ?_⟩
                      rintro ⟨heq, _⟩
                      injection heq with heq1 _
                      exact hn2 heq1
                  · rintro (⟨heq, hx⟩ | ⟨hst, hside⟩)
                    · injection heq with heq1 heq2
                      refine Or.inl ⟨heq1, heq2, _, rfl, ?_⟩
                      simp only [TrieNode.subs]
                      rw [mem_values_mapSet hwfm.1 sub x]
                      exact Or.inl hx
                    · rcases hst with ⟨hl, hp, m', hm', hmem⟩ | ⟨hl, c, hc, hst'⟩ |
                        ⟨hn1, hn2, c, hget, hst'⟩
                      · injection hm' with hm'
                        refine Or.inl ⟨hl, hp, _, rfl, ?_⟩
                        simp only [TrieNode.subs]
                        rw [mem_values_mapSet hwfm.1 sub x]
                        refine Or.inr ⟨by rw [← hm'] at hmem; exact hmem, ?_⟩
                        intro hcid
                        exact (by
                          apply hside
                          exact ⟨by rw [hl, hp], hcid⟩)
                      · exact Or.inr (Or.inl ⟨hl, c, hc, hst'⟩)
                      · exact Or.inr (Or.inr ⟨hn1, hn2, c, hget, hst'⟩)
        · rw [insertSubscription_lit _ _ _ _ _ _ _ _ hlp hlh,
            show normLevels (level :: rest) = level :: normLevels rest from by
              simp [normLevels, hlh]]
          have hwfc : WFtrie ((mapGet ch level).getD createNode) := by
            cases hg : mapGet ch level with
            | none => exact WFtrie_createNode
            | some c => exact h3 _ (mapGet_mem hg)
          cases p with
          | nil =>
              rw [Stored_nil_iff, Stored_nil_iff]
              constructor
              · intro h
                exact Or.inr ⟨h, by simp⟩
              · rintro (⟨h, _⟩ | ⟨h, _⟩)
                · cases h
                · exact h
          | cons l' p' =>
              rw [Stored_cons_iff, Stored_cons_iff]
              constructor
              · rintro (⟨hl, hp, hm⟩ | ⟨hl, c, hc, hst⟩ | ⟨hn1, hn2, c, hget, hst⟩)
                · refine Or.inr ⟨Or.inl ⟨hl, hp, hm⟩, ?_⟩
                  rintro ⟨heq, _⟩
                  injection heq with heq1 _
                  rw [hl] at heq1
                  exact hlh heq1.symm
                · refine Or.inr ⟨Or.inr (Or.inl ⟨hl, c, hc, hst⟩), ?_⟩
                  rintro ⟨heq, _⟩
                  injection heq with heq1 _
                  rw [hl] at heq1
                  exact hlp heq1.symm
                · rw [mapGet_mapSet] at hget
                  by_cases hll : level = l'
                  · rw [if_pos hll] at hget
                    injection hget with hget
                    rw [← hget] at hst
                    rcases (ih _ hwfc (i + 1) p').mp hst with ⟨hp', hx⟩ | ⟨hst', hside⟩
                    · exact Or.inl ⟨by rw [hll, hp'], hx⟩
                    · cases hg : mapGet ch level with
                      | none =>
                          rw [hg] at hst'
                          exact absurd hst' (not_Stored_createNode _ _)
                      | some c₀ =>
                          rw [hg] at hst'
                          refine Or.inr ⟨Or.inr (Or.inr ⟨hn1, hn2, c₀,
                            by rw [← hll]; exact hg, by simpa using hst'⟩), ?_⟩
                          rintro ⟨heq, hcid⟩
                          injection heq with _ heq2
                          exact hside ⟨heq2, hcid⟩
                  · rw [if_neg hll] at hget
                    refine Or.inr ⟨Or.inr (Or.inr ⟨hn1, hn2, c, hget, hst⟩), ?_⟩
                    rintro ⟨heq, _⟩
                    injection heq with heq1 _
                    exact hll heq1.symm
              · rintro (⟨heq, hx⟩ | ⟨hst, hside⟩)
                · injection heq with heq1 heq2
                  refine Or.inr (Or.inr ⟨by rw [heq1]; exact hlp, by rw [heq1]; exact hlh,
                    insertSubscription ((mapGet ch level).getD createNode) rest (i + 1) sub,
                    by rw [mapGet_mapSet, if_pos heq1.symm], ?_⟩)
                  rw [(ih _ hwfc (i + 1) p')]
                  exact Or.inl ⟨heq2, hx⟩
                · rcases hst with ⟨hl, hp, hm⟩ | ⟨hl, c, hc, hst'⟩ |
                    ⟨hn1, hn2, c, hget, hst'⟩
                  · exact Or.inl ⟨hl, hp, hm⟩
                  · exact Or.inr (Or.inl ⟨hl, c, hc, hst'⟩)
                  · by_cases hll : level = l'
                    · refine Or.inr (Or.inr ⟨hn1, hn2,
                        insertSubscription ((mapGet ch level).getD createNode) rest (i + 1) sub,
                        by rw [mapGet_mapSet, if_pos hll], ?_⟩)
                      rw [(ih _ hwfc (i + 1) p')]
                      refine Or.inr ⟨?_, ?_⟩
                      · rw [hll, hget]
                        simpa using hst'
                      · rintro ⟨heq2, hcid⟩
                        exact hside ⟨by rw [← hll, heq2], hcid⟩
                    · refine Or.inr (Or.inr ⟨hn1, hn2, c, ?_, hst'⟩)
                      rw [mapGet_mapSet, if_neg hll]
                      exact hget

theorem mem_findRec (ls : List Str) (hls : ∀ l ∈ ls, l ≠ ['+'] ∧ l ≠ ['#'])
    (n : TrieNode) (i : Nat) (x : Subscription) :
    x ∈ findSubscribersRecursive n ls i ↔
      ∃ p, Stored n p x ∧ storedPathMatches p ls = true := by
  induction ls generalizing n i with
  | nil =>
      obtain ⟨subs, ch, sw, mw⟩ := n
      rw [findRec_nil]
      cases mw with
      | none =>
          simp only [TrieNode.multi, TrieNode.subs, List.nil_append]
          constructor
          · intro h
            exact ⟨[], (Stored_nil_iff _ _ _ _ _).mpr h, rfl⟩
          · rintro ⟨p, hst, hm⟩
            rcases (Stored_iff _ _ _ _ _ _).mp hst with ⟨hp, hmem⟩ | ⟨hp, m, hmw, _⟩ |
              ⟨p', hp, c, hc, _⟩ | ⟨l, p', hp, hn1, hn2, c, hget, _⟩
            · exact hmem
            · cases hmw
            · subst hp
              simp [storedPathMatches] at hm
            · subst hp
              simp [storedPathMatches, hn2] at hm
      | some m =>
          simp only [TrieNode.multi, TrieNode.subs]
          constructor
          · intro h
            rcases List.mem_append.mp h with h | h
            · exact ⟨[['#']], (Stored_iff _ _ _ _ _ _).mpr
                (Or.inr (Or.inl ⟨rfl, m, rfl, h⟩)), by decide⟩
            · exact ⟨[], (Stored_nil_iff _ _ _ _ _).mpr h, rfl⟩
          · rintro ⟨p, hst, hm⟩
            rcases (Stored_iff _ _ _ _ _ _).mp hst with ⟨hp, hmem⟩ | ⟨hp, m', hmw, hmem⟩ |
              ⟨p', hp, c, hc, _⟩ | ⟨l, p', hp, hn1, hn2, c, hget, _⟩
            · exact List.mem_append.mpr (Or.inr hmem)
            · injection hmw with hmw
              subst hmw
              exact List.mem_append.mpr (Or.inl hmem)
            · subst hp
              simp [storedPathMatches] at hm
            · subst hp
              simp [storedPathMatches, hn2] at hm
  | cons level rest ih =>
      have hlvl := hls level (List.mem_cons_self _ _)
      have hrest : ∀ l ∈ rest, l ≠ ['+'] ∧ l ≠ ['#'] :=
        fun l hl => hls l (List.mem_cons_of_mem _ hl)
      obtain ⟨subs, ch, sw, mw⟩ := n
      rw [findRec_cons]
      constructor
      · intro h
        rcases List.mem_append.mp h with h | h
        · rcases List.mem_append.mp h with h | h
          · -- multi-wildcard part
            cases hmw : mw with
            | none => rw [hmw] at h; simp [TrieNode.multi] at h
            | some m =>
                rw [hmw] at h
                simp only [TrieNode.multi] at h
                refine ⟨[['#']], (Stored_iff _ _ _ _ _ _).mpr
                  (Or.inr (Or.inl ⟨rfl, m, rfl, h⟩)), ?_⟩
                simp [storedPathMatches]
          · -- exact-match child
            cases hg : mapGet ch level with
            | none => rw [show TrieNode.children (.mk subs ch sw mw) = ch from rfl, hg] at h; simp at h
            | some c =>
                rw [show TrieNode.children (.mk subs ch sw mw) = ch from rfl, hg] at h
                rcases (ih hrest c (i + 1)).mp h with ⟨p', hst, hm⟩
                refine ⟨level :: p', (Stored_iff _ _ _ _ _ _).mpr
                  (Or.inr (Or.inr (Or.inr ⟨level, p', rfl, hlvl.1, hlvl.2, c, hg, hst⟩))), ?_⟩
                simp [storedPathMatches, hlvl.2, hm]
        · -- single-level wildcard child
          cases hsw : sw with
          | none => rw [hsw] at h; simp [TrieNode.single] at h
          | some c =>
              rw [hsw] at h
              simp only [TrieNode.single] at h
              rcases (ih hrest c (i + 1)).mp h with ⟨p', hst, hm⟩
              refine ⟨['+'] :: p', (Stored_iff _ _ _ _ _ _).mpr
                (Or.inr (Or.inr (Or.inl ⟨p', rfl, c, rfl, hst⟩))), ?_⟩
              simp [storedPathMatches, hm]
      · rintro ⟨p, hst, hm⟩
        rcases (Stored_iff _ _ _ _ _ _).mp hst with ⟨hp, hmem⟩ | ⟨hp, m', hmw, hmem⟩ |
          ⟨p', hp, c, hc, hst'⟩ | ⟨l, p', hp, hn1, hn2, c, hget, hst'⟩
        · subst hp
          simp [storedPathMatches] at hm
        · subst hp
          refine List.mem_append.mpr (Or.inl (List.mem_append.mpr (Or.inl ?_)))
          rw [show TrieNode.multi (.mk subs ch sw mw) = mw from rfl, hmw]
          exact hmem
        · subst hp
          have hm' : storedPathMatches p' rest = true := by
            simpa [storedPathMatches] using hm
          refine List.mem_append.mpr (Or.inr ?_)
          rw [show TrieNode.single (.mk subs ch sw mw) = sw from rfl, hc]
          exact (ih hrest c (i + 1)).mpr ⟨p', hst', hm'⟩
        · subst hp
          have hm' : l = level ∧ storedPathMatches p' rest = true := by
            rw [show storedPathMatches (l :: p') (level :: rest) =
                  (if l = ['#'] then true
                   else (decide (l = ['+']) || decide (l = level)) &&
                     storedPathMatches p' rest) from rfl, if_neg hn2] at hm
            simp only [Bool.and_eq_true, Bool.or_eq_true, decide_eq_true_eq] at hm
            rcases hm with ⟨hl | hl, hm⟩
            · exact absurd hl hn1
            · exact ⟨hl, hm⟩
          obtain ⟨rfl, hm'⟩ := hm'
          refine List.mem_append.mpr (Or.inl (List.mem_append.mpr (Or.inr ?_)))
          rw [show TrieNode.children (.mk subs ch sw mw) = ch from rfl, hget]
          exact (ih hrest c (i + 1)).mpr ⟨p', hst', hm'⟩

theorem validLevels_of_validateTopicFilter {f : Str}
    (h : validateTopicFilter f = true) : validLevels (jsSplit f) = true := by
  unfold validateTopicFilter at h
  split at h
  · cases h
  · exact h

theorem normLevels_of_validLevels {lvls : List Str}
    (h : validLevels lvls = true) : normLevels lvls = lvls := by
  induction lvls with
  | nil => rfl
  | cons l ls ih =>
      simp only [validLevels] at h
      by_cases hl : l = ['#']
      · rw [if_pos hl] at h
        have : ls = [] := by simpa [List.isEmpty_iff] using h
        subst this
        rw [hl]
        rfl
      · rw [if_neg hl] at h
        rw [show normLevels (l :: ls) = l :: normLevels ls from by
          simp [normLevels, hl]]
        by_cases hp : l = ['+']
        · rw [if_pos hp] at h
          rw [ih h]
        · rw [if_neg hp] at h
          split at h
          · cases h
          · rw [ih h]

theorem WFtrie_foldl (es : List SubEntry) (n : TrieNode) (hn : WFtrie n)
    (time : Nat) :
    WFtrie (es.foldl
      (fun n e => addSubscription n e.filter e.client e.qos time) n) := by
  induction es generalizing n with
  | nil => exact hn
  | cons e es ih =>
      exact ih _ (WFtrie_insert (splitTopic e.filter) n hn 0 (entrySub e time))

theorem WFtrie_buildTrie (entries : List SubEntry) (time : Nat) :
    WFtrie (buildTrie entries time) :=
  WFtrie_foldl entries createNode WFtrie_createNode time

theorem Stored_buildTrie (time : Nat) (p : List Str) (x : Subscription) :
    ∀ entries : List SubEntry,
      (∀ e ∈ entries, validateTopicFilter e.filter = true) →
      ((entries.map fun e => (e.filter, e.client)).Nodup) →
      (Stored (buildTrie entries time) p x ↔
        ∃ e ∈ entries, p = jsSplit e.filter ∧ x = entrySub e time) := by
  intro entries
  induction entries using List.reverseRecOn with
  | nil =>
      intro _ _
      constructor
      · intro h
        exact absurd h (not_Stored_createNode p x)
      · rintro ⟨e, he, _⟩
        simp at he
  | append_singleton es e ih =>
      intro hvalid hnd
      have hvalid_es : ∀ e' ∈ es, validateTopicFilter e'.filter = true :=
        fun e' he' => hvalid e' (List.mem_append.mpr (Or.inl he'))
      have hvalid_e : validateTopicFilter e.filter = true :=
        hvalid e (List.mem_append.mpr (Or.inr (List.mem_singleton.mpr rfl)))
      have hnd' : ((es.map fun e' => (e'.filter, e'.client)).Nodup) ∧
          (e.filter, e.client) ∉ es.map fun e' => (e'.filter, e'.client) := by
        rw [List.map_append] at hnd
        rcases List.nodup_append.mp hnd with ⟨h1, _, h3⟩
        refine ⟨h1, fun hmem => ?_⟩
        exact h3 hmem (by simp)
      have hbuild : buildTrie (es ++ [e]) time =
          insertSubscription (buildTrie es time) (splitTopic e.filter) 0
            (entrySub e time) := by
        unfold buildTrie
        rw [List.foldl_append]
        rfl
      have hnorm : normLevels (splitTopic e.filter) = jsSplit e.filter := by
        rw [splitTopic_eq_jsSplit]
        exact normLevels_of_validLevels (validLevels_of_validateTopicFilter hvalid_e)
      rw [hbuild,
        Stored_insert _ _ (WFtrie_buildTrie es time) 0 _ p x, hnorm,
        ih hvalid_es hnd'.1]
      constructor
      · rintro (⟨hp, hx⟩ | ⟨⟨e', he', hp, hx⟩, hside⟩)
        · exact ⟨e, List.mem_append.mpr (Or.inr (List.mem_singleton.mpr rfl)), hp, hx⟩
        · exact ⟨e', List.mem_append.mpr (Or.inl he'), hp, hx⟩
      · rintro ⟨e', he', hp, hx⟩
        rcases List.mem_append.mp he' with he' | he'
        · refine Or.inr ⟨⟨e', he', hp, hx⟩, ?_⟩
          rintro ⟨hpe, hcid⟩
          apply hnd'.2
          have hff : e'.filter = e.filter :=
            jsSplit_injective (by rw [← hp, hpe])
          have hcc : e'.client = e.client := by
            rw [hx] at hcid
            exact hcid
          rw [← hff, ← hcc]
          exact List.mem_map_of_mem _ he'
        · rw [List.mem_singleton] at he'
          subst he'
          exact Or.inl ⟨hp, hx⟩

theorem mapGet_of_mem_nodup {κ α : Type} [DecidableEq κ] {m : List (κ × α)}
    (hnd : (m.map Prod.fst).Nodup) {pr : κ × α} (h : pr ∈ m) :
    mapGet m pr.1 = some pr.2 := by
  induction m with
  | nil => simp at h
  | cons hd rest ih =>
      obtain ⟨k₀, v₀⟩ := hd
      simp only [List.map_cons, List.nodup_cons] at hnd
      rcases List.mem_cons.mp h with h' | h'
      · rw [h']
        simp [mapGet]
      · by_cases hk : k₀ = pr.1
        · exfalso
          apply hnd.1
          rw [hk]
          exact List.mem_map_of_mem Prod.fst h'
        · simp only [mapGet, if_neg hk]
          exact ih hnd.2 h'

theorem dedup_foldl (l : List Subscription) :
    ∀ acc : List (Str × Subscription), WFsubs acc →
      WFsubs (l.foldl (fun acc s =>
          match mapGet acc s.clientId with
          | none => mapSet acc s.clientId s
          | some existing =>
              if s.qos > existing.qos then mapSet acc s.clientId s else acc) acc) ∧
      (∀ pr ∈ l.foldl (fun acc s =>
          match mapGet acc s.clientId with
          | none => mapSet acc s.clientId s
          | some existing =>
              if s.qos > existing.qos then mapSet acc s.clientId s else acc) acc,
        pr.2 ∈ l ∨ pr ∈ acc) ∧
      (∀ cid v, mapGet acc cid = some v →
        ∃ v', mapGet (l.foldl (fun acc s =>
          match mapGet acc s.clientId with
          | none => mapSet acc s.clientId s
          | some existing =>
              if s.qos > existing.qos then mapSet acc s.clientId s else acc) acc)
            cid = some v' ∧ v.qos ≤ v'.qos) ∧
      (∀ s ∈ l, ∃ v', mapGet (l.foldl (fun acc s =>
          match mapGet acc s.clientId with
          | none => mapSet acc s.clientId s
          | some existing =>
              if s.qos > existing.qos then mapSet acc s.clientId s else acc) acc)
          s.clientId = some v' ∧ s.qos ≤ v'.qos) := by
  induction l with
  | nil =>
      intro acc hacc
      refine ⟨hacc, fun pr hpr => Or.inr hpr, fun cid v hv => ⟨v, hv, le_refl _⟩,
        fun s hs => absurd hs (List.not_mem_nil s)⟩
  | cons s₀ rest ih =>
      intro acc hacc
      rcases hg : mapGet acc s₀.clientId with _ | e
      · -- no entry yet: insert s₀
        have hacc₀ : WFsubs (mapSet acc s₀.clientId s₀) := WFsubs_mapSet hacc s₀
        obtain ⟨w1, w2, w3, w4⟩ := ih (mapSet acc s₀.clientId s₀) hacc₀
        have hfold : (s₀ :: rest).foldl (fun acc s =>
            match mapGet acc s.clientId with
            | none => mapSet acc s.clientId s
            | some existing =>
                if s.qos > existing.qos then mapSet acc s.clientId s else acc) acc =
            rest.foldl (fun acc s =>
              match mapGet acc s.clientId with
              | none => mapSet acc s.clientId s
              | some existing =>
                  if s.qos > existing.qos then mapSet acc s.clientId s else acc) (mapSet acc s₀.clientId s₀) := by
          simp only [List.foldl_cons, hg]
        rw [hfold]
        refine ⟨w1, ?_, ?_, ?_⟩
        · intro pr hpr
          rcases w2 pr hpr with h | h
          · exact Or.inl (List.mem_cons_of_mem _ h)
          · rcases mem_mapSet h with h' | h'
            · rw [h']
              exact Or.inl (List.mem_cons_self _ _)
            · exact Or.inr h'
        · intro cid v hv
          have hne : s₀.clientId ≠ cid := by
            intro heq
            rw [heq] at hg
            rw [hg] at hv
            cases hv
          apply w3
          rw [mapGet_mapSet, if_neg hne]
          exact hv
        · intro s hs
          rcases List.mem_cons.mp hs with h | h
          · subst h
            have : mapGet (mapSet acc s.clientId s) s.clientId = some s := by
              rw [mapGet_mapSet, if_pos rfl]
            rcases w3 s.clientId s this with ⟨v', hv', hle⟩
            exact ⟨v', hv', hle⟩
          · exact w4 s h
      · -- existing entry: keep the larger qos
        by_cases hq : s₀.qos > e.qos
        · have hacc₀ : WFsubs (mapSet acc s₀.clientId s₀) := WFsubs_mapSet hacc s₀
          obtain ⟨w1, w2, w3, w4⟩ := ih (mapSet acc s₀.clientId s₀) hacc₀
          have hfold : (s₀ :: rest).foldl (fun acc s =>
              match mapGet acc s.clientId with
              | none => mapSet acc s.clientId s
              | some existing =>
                  if s.qos > existing.qos then mapSet acc s.clientId s else acc) acc =
              rest.foldl (fun acc s =>
              match mapGet acc s.clientId with
              | none => mapSet acc s.clientId s
              | some existing =>
                  if s.qos > existing.qos then mapSet acc s.clientId s else acc) (mapSet acc s₀.clientId s₀) := by
            simp only [List.foldl_cons, hg, if_pos hq]
          rw [hfold]
          refine ⟨w1, ?_, ?_, ?_⟩
          · intro pr hpr
            rcases w2 pr hpr with h | h
            · exact Or.inl (List.mem_cons_of_mem _ h)
            · rcases mem_mapSet h with h' | h'
              · rw [h']
                exact Or.inl (List.mem_cons_self _ _)
              · exact Or.inr h'
          · intro cid v hv
            by_cases hne : s₀.clientId = cid
            · subst hne
              rw [hg] at hv
              injection hv with hv
              subst hv
              rcases w3 s₀.clientId s₀ (by rw [mapGet_mapSet, if_pos rfl]) with
                ⟨v', hv', hle⟩
              exact ⟨v', hv', le_trans (le_of_lt hq) hle⟩
            · apply w3
              rw [mapGet_mapSet, if_neg hne]
              exact hv
          · intro s hs
            rcases List.mem_cons.mp hs with h | h
            · subst h
              rcases w3 s.clientId s (by rw [mapGet_mapSet, if_pos rfl]) with
                ⟨v', hv', hle⟩
              exact ⟨v', hv', hle⟩
            · exact w4 s h
        · obtain ⟨w1, w2, w3, w4⟩ := ih acc hacc
          have hfold : (s₀ :: rest).foldl (fun acc s =>
              match mapGet acc s.clientId with
              | none => mapSet acc s.clientId s
              | some existing =>
                  if s.qos > existing.qos then mapSet acc s.clientId s else acc) acc =
              rest.foldl (fun acc s =>
              match mapGet acc s.clientId with
              | none => mapSet acc s.clientId s
              | some existing =>
                  if s.qos > existing.qos then mapSet acc s.clientId s else acc) acc := by
            simp only [List.foldl_cons, hg, if_neg hq]
          rw [hfold]
          refine ⟨w1, ?_, ?_, ?_⟩
          · intro pr hpr
            rcases w2 pr hpr with h | h
            · exact Or.inl (List.mem_cons_of_mem _ h)
            · exact Or.inr h
          · exact w3
          · intro s hs
            rcases List.mem_cons.mp hs with h | h
            · subst h
              rcases w3 s.clientId e hg with ⟨v', hv', hle⟩
              exact ⟨v', hv', le_trans (not_lt.mp hq) hle⟩
            · exact w4 s h

theorem topicMatchesLoop_eq_stored (fls : List Str)
    (hv : validLevels fls = true) (tls : List Str) :
    topicMatchesLoop fls tls = storedPathMatches fls tls := by
  induction fls generalizing tls with
  | nil => cases tls <;> rfl
  | cons f fs ih =>
      by_cases hf : f = ['#']
      · have hfs : fs = [] := by
          simp only [validLevels] at hv
          rw [if_pos hf] at hv
          simpa [List.isEmpty_iff] using hv
        subst hfs
        cases tls with
        | nil => simp [topicMatchesLoop, storedPathMatches, hf]
        | cons t ts => simp [topicMatchesLoop, storedPathMatches, hf]
      · by_cases hp : f = ['+']
        · have hv' : validLevels fs = true := by
            simp only [validLevels] at hv
            rw [if_neg hf, if_pos hp] at hv
            exact hv
          cases tls with
          | nil => simp [topicMatchesLoop, storedPathMatches, hf]
          | cons t ts =>
              rw [show topicMatchesLoop (f :: fs) (t :: ts) = topicMatchesLoop fs ts
                  from by simp [topicMatchesLoop, hf, hp],
                show storedPathMatches (f :: fs) (t :: ts) = storedPathMatches fs ts
                  from by simp [storedPathMatches, hf, hp]]
              exact ih hv' ts
        · have hv' : validLevels fs = true := by
            simp only [validLevels] at hv
            rw [if_neg hf, if_neg hp] at hv
            split at hv
            · cases hv
            · exact hv
          cases tls with
          | nil => simp [topicMatchesLoop, storedPathMatches, hf]
          | cons t ts =>
              by_cases hft : f = t
              · subst hft
                rw [show topicMatchesLoop (f :: fs) (f :: ts) = topicMatchesLoop fs ts
                    from by simp [topicMatchesLoop, hf, hp],
                  show storedPathMatches (f :: fs) (f :: ts) = storedPathMatches fs ts
                    from by simp [storedPathMatches, hf, hp]]
                exact ih hv' ts
              · simp [topicMatchesLoop, storedPathMatches, hf, hp, hft]

theorem topicMatches_eq_stored (f t : Str) (hv : validateTopicFilter f = true) :
    topicMatches f t = storedPathMatches (jsSplit f) (jsSplit t) :=
  topicMatchesLoop_eq_stored _ (validLevels_of_validateTopicFilter hv) _

theorem mem_findRec_buildTrie (entries : List SubEntry) (time : Nat) (topic : Str)
    (hvf : ∀ e ∈ entries, validateTopicFilter e.filter = true)
    (hnd : (entries.map fun e => (e.filter, e.client)).Nodup)
    (hvt : validatePublishTopic topic = true) (x : Subscription) :
    x ∈ findSubscribersRecursive (buildTrie entries time) (splitTopic topic) 0 ↔
      ∃ e ∈ entries, x = entrySub e time ∧ topicMatches e.filter topic = true := by
  rw [splitTopic_eq_jsSplit,
    mem_findRec _ (levels_not_wildcard hvt) _ 0 x]
  constructor
  · rintro ⟨p, hst, hm⟩
    rcases (Stored_buildTrie time p x entries hvf hnd).mp hst with ⟨e, he, hp, hx⟩
    refine ⟨e, he, hx, ?_⟩
    rw [topicMatches_eq_stored _ _ (hvf e he), ← hp]
    exact hm
  · rintro ⟨e, he, hx, hm⟩
    refine ⟨jsSplit e.filter,
      (Stored_buildTrie time _ x entries hvf hnd).mpr ⟨e, he, rfl, hx⟩, ?_⟩
    rw [← topicMatches_eq_stored _ _ (hvf e he)]
    exact hm

theorem values_clientId_eq_keys (m : List (Str × Subscription))
    (h : ∀ pr ∈ m, pr.1 = pr.2.clientId) :
    m.map (fun pr => pr.2.clientId) = m.map Prod.fst := by
  induction m with
  | nil => rfl
  | cons hd tl ih =>
      simp only [List.map_cons]
      rw [ih (fun pr hpr => h pr (List.mem_cons_of_mem _ hpr)),
        h hd (List.mem_cons_self _ _)]

/-- C1 (amended): for a Topic Index built from any set of subscription
entries whose filters pass `validateTopicFilter`, with distinct
`(filter, clientId)` pairs, and any wildcard-free publish topic,
`findSubscribers` contains a client iff the client has an entry whose
filter satisfies `topicMatches(filter, topic)`; the qos returned for a
client is the maximum granted qos over that client's matching entries;
and the result has at most one entry per client.  (The unamended claim,
which also quantifies over filters rejected by `validateTopicFilter`,
is refuted by `C1_counterexample`.) -/
theorem C1_findSubscribers_equiv (entries : List SubEntry) (time : Nat)
    (topic : Str)
    (hvf : ∀ e ∈ entries, validateTopicFilter e.filter = true)
    (hnd : (entries.map fun e => (e.filter, e.client)).Nodup)
    (hvt : validatePublishTopic topic = true) :
    (∀ cid : Str,
      (∃ s ∈ findSubscribers (buildTrie entries time) topic, s.clientId = cid) ↔
      (∃ e ∈ entries, e.client = cid ∧ topicMatches e.filter topic = true)) ∧
    (∀ s ∈ findSubscribers (buildTrie entries time) topic,
      (∃ e ∈ entries, e.client = s.clientId ∧ topicMatches e.filter topic = true ∧
        e.qos = s.qos) ∧
      (∀ e ∈ entries, e.client = s.clientId → topicMatches e.filter topic = true →
        e.qos ≤ s.qos)) ∧
    ((findSubscribers (buildTrie entries time) topic).map
      (fun s => s.clientId)).Nodup := by
  have hmem := mem_findRec_buildTrie entries time topic hvf hnd hvt
  obtain ⟨w1, w2, w3, w4⟩ := dedup_foldl
    (findSubscribersRecursive (buildTrie entries time) (splitTopic topic) 0)
    [] WFsubs_nil
  have hfs : findSubscribers (buildTrie entries time) topic =
      ((findSubscribersRecursive (buildTrie entries time) (splitTopic topic) 0).foldl
        (fun acc s =>
          match mapGet acc s.clientId with
          | none => mapSet acc s.clientId s
          | some existing =>
              if s.qos > existing.qos then mapSet acc s.clientId s else acc)
        []).map Prod.snd := rfl
  refine ⟨?_, ?_, ?_⟩
  · intro cid
    constructor
    · rintro ⟨s, hs, hcid⟩
      rw [hfs] at hs
      rcases List.mem_map.mp hs with ⟨pr, hpr, hsnd⟩
      rcases w2 pr hpr with hL | hA
      · rcases (hmem pr.2).mp hL with ⟨e, he, hx, hm⟩
        refine ⟨e, he, ?_, hm⟩
        have : (entrySub e time).clientId = e.client := rfl
        rw [← hcid, ← hsnd, hx, this]
      · simp at hA
    · rintro ⟨e, he, hcl, hm⟩
      have hL : entrySub e time ∈
          findSubscribersRecursive (buildTrie entries time) (splitTopic topic) 0 :=
        (hmem _).mpr ⟨e, he, rfl, hm⟩
      rcases w4 _ hL with ⟨v', hv', hle⟩
      refine ⟨v', ?_, ?_⟩
      · rw [hfs]
        exact List.mem_map_of_mem Prod.snd (mapGet_mem hv')
      · have hkey := w1.2 _ (mapGet_mem hv')
        rw [← hkey]
        show (entrySub e time).clientId = cid
        rw [show (entrySub e time).clientId = e.client from rfl, hcl]
  · intro s hs
    rw [hfs] at hs
    rcases List.mem_map.mp hs with ⟨pr, hpr, hsnd⟩
    rcases w2 pr hpr with hL | hA
    swap
    · simp at hA
    rcases (hmem pr.2).mp hL with ⟨e, he, hx, hm⟩
    have hscid : s.clientId = e.client := by
      rw [← hsnd, hx]
      rfl
    constructor
    · refine ⟨e, he, hscid.symm, hm, ?_⟩
      rw [← hsnd, hx]
      rfl
    · intro e' he' hcl' hm'
      have hL' : entrySub e' time ∈
          findSubscribersRecursive (buildTrie entries time) (splitTopic topic) 0 :=
        (hmem _).mpr ⟨e', he', rfl, hm'⟩
      rcases w4 _ hL' with ⟨v', hv', hle⟩
      have hgs : mapGet ((findSubscribersRecursive (buildTrie entries time)
          (splitTopic topic) 0).foldl
          (fun acc s =>
            match mapGet acc s.clientId with
            | none => mapSet acc s.clientId s
            | some existing =>
                if s.qos > existing.qos then mapSet acc s.clientId s else acc)
          []) (entrySub e' time).clientId = some s := by
        have hg := mapGet_of_mem_nodup w1.1 hpr
        rw [w1.2 _ hpr] at hg
        rw [hsnd] at hg
        have hkey : (entrySub e' time).clientId = s.clientId := hcl'
        rw [hkey]
        exact hg
      rw [hgs] at hv'
      injection hv' with hv'
      rw [← hv'] at hle
      exact hle
  · rw [hfs, List.map_map]
    have : ((findSubscribersRecursive (buildTrie entries time) (splitTopic topic)
        0).foldl
        (fun acc s =>
          match mapGet acc s.clientId with
          | none => mapSet acc s.clientId s
          | some existing =>
              if s.qos > existing.qos then mapSet acc s.clientId s else acc)
        []).map ((fun s => s.clientId) ∘ Prod.snd) =
        ((findSubscribersRecursive (buildTrie entries time) (splitTopic topic)
        0).foldl
        (fun acc s =>
          match mapGet acc s.clientId with
          | none => mapSet acc s.clientId s
          | some existing =>
              if s.qos > existing.qos then mapSet acc s.clientId s else acc)
        []).map Prod.fst := by
      refine values_clientId_eq_keys _ ?_
      intro pr hpr
      exact w1.2 pr hpr
    rw [this]
    exact w1.1

/-- C1 counterexample: with the filter `a/#/b` (rejected by
`validateTopicFilter` but accepted by `addSubscription`, which ignores
everything after `#`) inserted for client `c`, `findSubscribers` on topic
`a` returns client `c`, yet `topicMatches("a/#/b", "a")` is false, so the
claimed equivalence fails as stated. -/
theorem C1_counterexample :
    (findSubscribers
        (addSubscription createNode ['a', '/', '#', '/', 'b'] ['c'] 1 0)
        ['a']).map (fun s => s.clientId) = [['c']] ∧
      topicMatches ['a', '/', '#', '/', 'b'] ['a'] = false := by
  constructor
  · rfl
  · rfl

/-- C1 witness: the amended equivalence instantiated on the entry
`(filter "a/+", client "c", qos 2)` and the topic `a/b`. -/
theorem C1_findSubscribers_equiv_witness :
    (validateTopicFilter ['a', '/', '+'] = true ∧
      validatePublishTopic ['a', '/', 'b'] = true) ∧
    ((findSubscribers (buildTrie [⟨['a', '/', '+'], ['c'], 2⟩] 7)
        ['a', '/', 'b']).map (fun s => s.clientId)).Nodup :=
  ⟨⟨by decide, by decide⟩,
    (C1_findSubscribers_equiv [⟨['a', '/', '+'], ['c'], 2⟩] 7 ['a', '/', 'b']
      (by decide) (by decide) (by decide)).2.2⟩

theorem removeRec_nil (subs : List (Str × Subscription))
    (ch : List (Str × TrieNode)) (sw mw : Option TrieNode) (i : Nat) (cid : Str) :
    removeSubscriptionRecursive (.mk subs ch sw mw) [] i cid =
      (.mk (mapDelete subs cid) ch sw mw, (mapGet subs cid).isSome) := rfl

theorem removeRec_plus_none (subs : List (Str × Subscription))
    (ch : List (Str × TrieNode)) (mw : Option TrieNode) (rest : List Str)
    (i : Nat) (cid : Str) :
    removeSubscriptionRecursive (.mk subs ch none mw) (['+'] :: rest) i cid =
      (.mk subs ch none mw, false) := rfl

theorem removeRec_plus_some (subs : List (Str × Subscription))
    (ch : List (Str × TrieNode)) (mw : Option TrieNode) (c : TrieNode)
    (rest : List Str) (i : Nat) (cid : Str) :
    removeSubscriptionRecursive (.mk subs ch (some c) mw) (['+'] :: rest) i cid =
      (let r := removeSubscriptionRecursive c rest (i + 1) cid
       if r.2 && isNodeEmpty r.1 then (.mk subs ch none mw, true)
       else (.mk subs ch (some r.1) mw, r.2)) := rfl

theorem removeRec_hash_none (subs : List (Str × Subscription))
    (ch : List (Str × TrieNode)) (sw : Option TrieNode) (rest : List Str)
    (i : Nat) (cid : Str) :
    removeSubscriptionRecursive (.mk subs ch sw none) (['#'] :: rest) i cid =
      (.mk subs ch sw none, false) := rfl

theorem removeRec_hash_some (subs msubs : List (Str × Subscription))
    (ch mch : List (Str × TrieNode)) (sw msw mmw : Option TrieNode)
    (rest : List Str) (i : Nat) (cid : Str) :
    removeSubscriptionRecursive
        (.mk subs ch sw (some (.mk msubs mch msw mmw))) (['#'] :: rest) i cid =
      (let removed := (mapGet msubs cid).isSome
       let m := TrieNode.mk (mapDelete msubs cid) mch msw mmw
       if removed && isNodeEmpty m then (.mk subs ch sw none, true)
       else (.mk subs ch sw (some m), removed)) := rfl

theorem removeRec_lit (subs : List (Str × Subscription))
    (ch : List (Str × TrieNode)) (sw mw : Option TrieNode) (level : Str)
    (rest : List Str) (i : Nat) (cid : Str) (h1 : level ≠ ['+'])
    (h2 : level ≠ ['#']) :
    removeSubscriptionRecursive (.mk subs ch sw mw) (level :: rest) i cid =
      (match mapGet ch level with
       | none => (.mk subs ch sw mw, false)
       | some c =>
           let r := removeSubscriptionRecursive c rest (i + 1) cid
           if r.2 && isNodeEmpty r.1 then (.mk subs (mapDelete ch level) sw mw, true)
           else (.mk subs (mapSet ch level r.1) sw mw, r.2)) := by
  simp only [removeSubscriptionRecursive, if_neg h1, if_neg h2]

theorem Stored_remove (ls : List Str) (n : TrieNode) (hwf : WFtrie n) (i : Nat)
    (cid : Str) (p : List Str) (x : Subscription) :
    Stored (removeSubscriptionRecursive n ls i cid).1 p x ↔
      Stored n p x ∧ ¬(p = normLevels ls ∧ x.clientId = cid) := by
  induction ls generalizing n i p with
  | nil =>
      obtain ⟨subs, ch, sw, mw⟩ := n
      obtain ⟨h1, _, _, _, _⟩ := WFtrie_inv hwf
      rw [removeRec_nil, show normLevels [] = [] from rfl]
      cases p with
      | nil =>
          rw [Stored_nil_iff, Stored_nil_iff, mem_values_mapDelete h1 cid x]
          constructor
          · rintro ⟨hmem, hne⟩
            exact ⟨hmem, by simp [hne]⟩
          · rintro ⟨hmem, hne⟩
            exact ⟨hmem, by simpa using hne⟩
      | cons level p' =>
          rw [Stored_cons_iff, Stored_cons_iff]
          constructor
          · intro h
            exact ⟨h, by simp⟩
          · rintro ⟨h, _⟩
            exact h
  | cons level rest ih =>
      obtain ⟨subs, ch, sw, mw⟩ := n
      obtain ⟨h1, h2, h3, h4, h5⟩ := WFtrie_inv hwf
      by_cases hlp : level = ['+']
      · subst hlp
        rw [show normLevels (['+'] :: rest) = ['+'] :: normLevels rest from rfl]
        cases sw with
        | none =>
            rw [removeRec_plus_none]
            constructor
            · intro h
              refine ⟨h, ?_⟩
              rintro ⟨hp, _⟩
              subst hp
              rcases (Stored_cons_iff _ _ _ _ _ _ _).mp h with ⟨hl, _⟩ |
                ⟨_, c, hc, _⟩ | ⟨hn1, _, _⟩
              · cases hl
              · cases hc
              · exact hn1 rfl
            · exact fun h => h.1
        | some c =>
            have hwfc : WFtrie c := h4 c rfl
            rw [removeRec_plus_some]
            rcases hcond : ((removeSubscriptionRecursive c rest (i + 1) cid).2 &&
                isNodeEmpty (removeSubscriptionRecursive c rest (i + 1) cid).1) with _ | _
            · -- not pruned
              simp only [hcond, Bool.false_eq_true, if_false]
              cases p with
              | nil =>
                  rw [Stored_nil_iff, Stored_nil_iff]
                  constructor
                  · intro h
                    exact ⟨h, by simp⟩
                  · exact fun h => h.1
              | cons l' p' =>
                  rw [Stored_cons_iff, Stored_cons_iff]
                  constructor
                  · rintro (⟨hl, hp, hm⟩ | ⟨hl, c', hc', hst⟩ |
                      ⟨hn1, hn2, c', hget, hst⟩)
                    · refine ⟨Or.inl ⟨hl, hp, hm⟩, ?_⟩
                      rintro ⟨heq, _⟩
                      injection heq with heq1 _
                      rw [hl] at heq1
                      cases heq1
                    · injection hc' with hc'
                      rw [← hc'] at hst
                      rcases (ih c hwfc (i + 1) p').mp hst with ⟨hst', hside⟩
                      refine ⟨Or.inr (Or.inl ⟨hl, c, rfl, hst'⟩), ?_⟩
                      rintro ⟨heq, hcid⟩
                      injection heq with _ heq2
                      exact hside ⟨heq2, hcid⟩
                    · refine ⟨Or.inr (Or.inr ⟨hn1, hn2, c', hget, hst⟩), ?_⟩
                      rintro ⟨heq, _⟩
                      injection heq with heq1 _
                      exact hn1 heq1
                  · rintro ⟨(⟨hl, hp, hm⟩ | ⟨hl, c', hc', hst⟩ |
                      ⟨hn1, hn2, c', hget, hst⟩), hside⟩
                    · exact Or.inl ⟨hl, hp, hm⟩
                    · injection hc' with hc'
                      refine Or.inr (Or.inl ⟨hl, _, rfl, ?_⟩)
                      rw [ih c hwfc (i + 1) p']
                      refine ⟨by rw [hc']; exact hst, ?_⟩
                      rintro ⟨heq2, hcid⟩
                      exact hside ⟨by rw [hl, heq2], hcid⟩
                    · exact Or.inr (Or.inr ⟨hn1, hn2, c', hget, hst⟩)
            · -- pruned: the updated child became empty
              simp only [hcond, eq_self_iff_true, if_true]
              have hempty : ∀ q y,
                  ¬ Stored (removeSubscriptionRecursive c rest (i + 1) cid).1 q y :=
                not_Stored_of_isNodeEmpty ((Bool.and_eq_true _ _).mp hcond).2
              cases p with
              | nil =>
                  rw [Stored_nil_iff, Stored_nil_iff]
                  constructor
                  · intro h
                    exact ⟨h, by simp⟩
                  · exact fun h => h.1
              | cons l' p' =>
                  rw [Stored_cons_iff, Stored_cons_iff]
                  constructor
                  · rintro (⟨hl, hp, hm⟩ | ⟨hl, c', hc', hst⟩ |
                      ⟨hn1, hn2, c', hget, hst⟩)
                    · refine ⟨Or.inl ⟨hl, hp, hm⟩, ?_⟩
                      rintro ⟨heq, _⟩
                      injection heq with heq1 _
                      rw [hl] at heq1
                      cases heq1
                    · cases hc'
                    · refine ⟨Or.inr (Or.inr ⟨hn1, hn2, c', hget, hst⟩), ?_⟩
                      rintro ⟨heq, _⟩
                      injection heq with heq1 _
                      exact hn1 heq1
                  · rintro ⟨(⟨hl, hp, hm⟩ | ⟨hl, c', hc', hst⟩ |
                      ⟨hn1, hn2, c', hget, hst⟩), hside⟩
                    · exact Or.inl ⟨hl, hp, hm⟩
                    · injection hc' with hc'
                      exfalso
                      apply hempty p' x
                      rw [ih c hwfc (i + 1) p']
                      refine ⟨by rw [hc']; exact hst, ?_⟩
                      rintro ⟨heq2, hcid⟩
                      exact hside ⟨by rw [hl, heq2], hcid⟩
                    · exact Or.inr (Or.inr ⟨hn1, hn2, c', hget, hst⟩)
      · by_cases hlh : level = ['#']
        · subst hlh
          rw [show normLevels (['#'] :: rest) = [['#']] from rfl]
          cases mw with
          | none =>
              rw [removeRec_hash_none]
              constructor
              · intro h
                refine ⟨h, ?_⟩
                rintro ⟨hp, _⟩
                subst hp
                rcases (Stored_cons_iff _ _ _ _ _ _ _).mp h with ⟨_, _, m, hm, _⟩ |
                  ⟨hl, _⟩ | ⟨_, hn2, _⟩
                · cases hm
                · cases hl
                · exact hn2 rfl
              · exact fun h => h.1
          | some m =>
              obtain ⟨msubs, mch, msw, mmw⟩ := m
              have hwfm := WFtrie_inv (h5 _ rfl)
              rw [removeRec_hash_some]
              rcases hcond : ((mapGet msubs cid).isSome &&
                  isNodeEmpty (TrieNode.mk (mapDelete msubs cid) mch msw mmw))
                  with _ | _
              · -- not pruned
                simp only [hcond, Bool.false_eq_true, if_false]
                cases p with
                | nil =>
                    rw [Stored_nil_iff, Stored_nil_iff]
                    constructor
                    · intro h
                      exact ⟨h, by simp⟩
                    · exact fun h => h.1
                | cons l' p' =>
                    rw [Stored_cons_iff, Stored_cons_iff]
                    constructor
                    · rintro (⟨hl, hp, m', hm', hmem⟩ | ⟨hl, c', hc', hst⟩ |
                        ⟨hn1, hn2, c', hget, hst⟩)
                      · injection hm' with hm'
                        rw [← hm'] at hmem
                        rcases (mem_values_mapDelete hwfm.1 cid x).mp hmem with
                          ⟨hmem', hne⟩
                        refine ⟨Or.inl ⟨hl, hp, ⟨msubs, mch, msw, mmw⟩, rfl, hmem'⟩, ?_⟩
                        rintro ⟨_, hcid⟩
                        exact hne hcid
                      · refine ⟨Or.inr (Or.inl ⟨hl, c', hc', hst⟩), ?_⟩
                        rintro ⟨heq, _⟩
                        injection heq with heq1 _
                        rw [hl] at heq1
                        cases heq1
                      · refine ⟨Or.inr (Or.inr ⟨hn1, hn2, c', hget, hst⟩), ?_⟩
                        rintro ⟨heq, _⟩
                        injection heq with heq1 _
                        exact hn2 heq1
                    · rintro ⟨(⟨hl, hp, m', hm', hmem⟩ | ⟨hl, c', hc', hst⟩ |
                        ⟨hn1, hn2, c', hget, hst⟩), hside⟩
                      · injection hm' with hm'
                        refine Or.inl ⟨hl, hp, _, rfl, ?_⟩
                        show x ∈ (mapDelete msubs cid).map Prod.snd
                        rw [mem_values_mapDelete hwfm.1 cid x]
                        refine ⟨by rw [← hm'] at hmem; exact hmem, ?_⟩
                        intro hcid
                        exact hside ⟨by rw [hl, hp], hcid⟩
                      · exact Or.inr (Or.inl ⟨hl, c', hc', hst⟩)
                      · exact Or.inr (Or.inr ⟨hn1, hn2, c', hget, hst⟩)
              · -- pruned: the multi-wildcard node became empty
                simp only [hcond, eq_self_iff_true, if_true]
                have hdel : ∀ y : Subscription,
                    y ∉ (mapDelete msubs cid).map Prod.snd := by
                  have hemp : isNodeEmpty
                      (TrieNode.mk (mapDelete msubs cid) mch msw mmw) = true :=
                    ((Bool.and_eq_true _ _).mp hcond).2
                  simp only [isNodeEmpty, Bool.and_eq_true, List.isEmpty_iff,
                    Option.isNone_iff_eq_none] at hemp
                  intro y hy
                  rw [hemp.1.1.1] at hy
                  simp at hy
                cases p with
                | nil =>
                    rw [Stored_nil_iff, Stored_nil_iff]
                    constructor
                    · intro h
                      exact ⟨h, by simp⟩
                    · exact fun h => h.1
                | cons l' p' =>
                    rw [Stored_cons_iff, Stored_cons_iff]
                    constructor
                    · rintro (⟨hl, hp, m', hm', hmem⟩ | ⟨hl, c', hc', hst⟩ |
                        ⟨hn1, hn2, c', hget, hst⟩)
                      · cases hm'
                      · refine ⟨Or.inr (Or.inl ⟨hl, c', hc', hst⟩), ?_⟩
                        rintro ⟨heq, _⟩
                        injection heq with heq1 _
                        rw [hl] at heq1
                        cases heq1
                      · refine ⟨Or.inr (Or.inr ⟨hn1, hn2, c', hget, hst⟩), ?_⟩
                        rintro ⟨heq, _⟩
                        injection heq with heq1 _
                        exact hn2 heq1
                    · rintro ⟨(⟨hl, hp, m', hm', hmem⟩ | ⟨hl, c', hc', hst⟩ |
                        ⟨hn1, hn2, c', hget, hst⟩), hside⟩
                      · injection hm' with hm'
                        exfalso
                        apply hdel x
                        rw [mem_values_mapDelete hwfm.1 cid x]
                        refine ⟨by rw [← hm'] at hmem; exact hmem, ?_⟩
                        intro hcid
                        exact hside ⟨by rw [hl, hp], hcid⟩
                      · exact Or.inr (Or.inl ⟨hl, c', hc', hst⟩)
                      · exact Or.inr (Or.inr ⟨hn1, hn2, c', hget, hst⟩)
        · rw [removeRec_lit _ _ _ _ _ _ _ _ hlp hlh,
            show normLevels (level :: rest) = level :: normLevels rest from by
              simp [normLevels, hlh]]
          cases hg : mapGet ch level with
          | none =>
              constructor
              · intro h
                refine ⟨h, ?_⟩
                rintro ⟨hp, _⟩
                subst hp
                rcases (Stored_cons_iff _ _ _ _ _ _ _).mp h with ⟨hl, _⟩ |
                  ⟨hl, _⟩ | ⟨_, _, c', hget, _⟩
                · exact hlh hl
                · exact hlp hl
                · rw [hg] at hget
                  cases hget
              · exact fun h => h.1
          | some c =>
              have hwfc : WFtrie c := h3 _ (mapGet_mem hg)
              rcases hcond : ((removeSubscriptionRecursive c rest (i + 1) cid).2 &&
                  isNodeEmpty (removeSubscriptionRecursive c rest (i + 1) cid).1)
                  with _ | _
              · -- not pruned: child updated in place
                simp only [hcond, Bool.false_eq_true, if_false]
                cases p with
                | nil =>
                    rw [Stored_nil_iff, Stored_nil_iff]
                    constructor
                    · intro h
                      exact ⟨h, by simp⟩
                    · exact fun h => h.1
                | cons l' p' =>
                    rw [Stored_cons_iff, Stored_cons_iff]
                    constructor
                    · rintro (⟨hl, hp, hm⟩ | ⟨hl, c', hc', hst⟩ |
                        ⟨hn1, hn2, c', hget', hst⟩)
                      · refine ⟨Or.inl ⟨hl, hp, hm⟩, ?_⟩
                        rintro ⟨heq, _⟩
                        injection heq with heq1 _
                        rw [hl] at heq1
                        exact hlh heq1.symm
                      · refine ⟨Or.inr (Or.inl ⟨hl, c', hc', hst⟩), ?_⟩
                        rintro ⟨heq, _⟩
                        injection heq with heq1 _
                        rw [hl] at heq1
                        exact hlp heq1.symm
                      · rw [mapGet_mapSet] at hget'
                        by_cases hll : level = l'
                        · rw [if_pos hll] at hget'
                          injection hget' with hget'
                          rw [← hget'] at hst
                          rcases (ih c hwfc (i + 1) p').mp hst with ⟨hst', hside⟩
                          refine ⟨Or.inr (Or.inr ⟨hn1, hn2, c,
                            by rw [← hll]; exact hg, hst'⟩), ?_⟩
                          rintro ⟨heq, hcid⟩
                          injection heq with _ heq2
                          exact hside ⟨heq2, hcid⟩
                        · rw [if_neg hll] at hget'
                          refine ⟨Or.inr (Or.inr ⟨hn1, hn2, c', hget', hst⟩), ?_⟩
                          rintro ⟨heq, _⟩
                          injection heq with heq1 _
                          exact hll heq1.symm
                    · rintro ⟨(⟨hl, hp, hm⟩ | ⟨hl, c', hc', hst⟩ |
                        ⟨hn1, hn2, c', hget', hst⟩), hside⟩
                      · exact Or.inl ⟨hl, hp, hm⟩
                      · exact Or.inr (Or.inl ⟨hl, c', hc', hst⟩)
                      · by_cases hll : level = l'
                        · refine Or.inr (Or.inr ⟨hn1, hn2,
                            (removeSubscriptionRecursive c rest (i + 1) cid).1,
                            by rw [mapGet_mapSet, if_pos hll], ?_⟩)
                          rw [ih c hwfc (i + 1) p']
                          rw [← hll] at hget'
                          rw [hg] at hget'
                          injection hget' with hget'
                          refine ⟨by rw [hget']; exact hst, ?_⟩
                          rintro ⟨heq2, hcid⟩
                          exact hside ⟨by rw [← hll, heq2], hcid⟩
                        · refine Or.inr (Or.inr ⟨hn1, hn2, c', ?_, hst⟩)
                          rw [mapGet_mapSet, if_neg hll]
                          exact hget'
              · -- pruned: child deleted
                simp only [hcond, eq_self_iff_true, if_true]
                have hempty : ∀ q y,
                    ¬ Stored (removeSubscriptionRecursive c rest (i + 1) cid).1 q y :=
                  not_Stored_of_isNodeEmpty ((Bool.and_eq_true _ _).mp hcond).2
                cases p with
                | nil =>
                    rw [Stored_nil_iff, Stored_nil_iff]
                    constructor
                    · intro h
                      exact ⟨h, by simp⟩
                    · exact fun h => h.1
                | cons l' p' =>
                    rw [Stored_cons_iff, Stored_cons_iff]
                    constructor
                    · rintro (⟨hl, hp, hm⟩ | ⟨hl, c', hc', hst⟩ |
                        ⟨hn1, hn2, c', hget', hst⟩)
                      · refine ⟨Or.inl ⟨hl, hp, hm⟩, ?_⟩
                        rintro ⟨heq, _⟩
                        injection heq with heq1 _
                        rw [hl] at heq1
                        exact hlh heq1.symm
                      · refine ⟨Or.inr (Or.inl ⟨hl, c', hc', hst⟩), ?_⟩
                        rintro ⟨heq, _⟩
                        injection heq with heq1 _
                        rw [hl] at heq1
                        exact hlp heq1.symm
                      · by_cases hll : level = l'
                        · rw [← hll, mapGet_mapDelete_self ch level h2] at hget'
                          cases hget'
                        · rw [mapGet_mapDelete_ne ch level l'
                            (fun hh => hll hh.symm)] at hget'
                          refine ⟨Or.inr (Or.inr ⟨hn1, hn2, c', hget', hst⟩), ?_⟩
                          rintro ⟨heq, _⟩
                          injection heq with heq1 _
                          exact hll heq1.symm
                    · rintro ⟨(⟨hl, hp, hm⟩ | ⟨hl, c', hc', hst⟩ |
                        ⟨hn1, hn2, c', hget', hst⟩), hside⟩
                      · exact Or.inl ⟨hl, hp, hm⟩
                      · exact Or.inr (Or.inl ⟨hl, c', hc', hst⟩)
                      · by_cases hll : level = l'
                        · exfalso
                          rw [← hll, hg] at hget'
                          injection hget' with hget'
                          apply hempty p' x
                          rw [ih c hwfc (i + 1) p']
                          refine ⟨by rw [hget']; exact hst, ?_⟩
                          rintro ⟨heq2, hcid⟩
                          exact hside ⟨by rw [← hll, heq2], hcid⟩
                        · refine Or.inr (Or.inr ⟨hn1, hn2, c', ?_, hst⟩)
                          rw [mapGet_mapDelete_ne ch level l'
                            (fun hh => hll hh.symm)]
                          exact hget'

theorem removeRec_no_op (ls : List Str) (n : TrieNode) (hwf : WFtrie n) (i : Nat)
    (cid : Str)
    (habs : ∀ x : Subscription, Stored n (normLevels ls) x → x.clientId ≠ cid) :
    removeSubscriptionRecursive n ls i cid = (n, false) := by
  induction ls generalizing n i with
  | nil =>
      obtain ⟨subs, ch, sw, mw⟩ := n
      obtain ⟨h1, _, _, _, _⟩ := WFtrie_inv hwf
      rw [removeRec_nil]
      have hg : mapGet subs cid = none := by
        cases hgv : mapGet subs cid with
        | none => rfl
        | some v =>
            exfalso
            have hkey := h1.2 _ (mapGet_mem hgv)
            exact habs v
              ((Stored_nil_iff _ _ _ _ _).mpr
                (List.mem_map_of_mem Prod.snd (mapGet_mem hgv)))
              hkey.symm
      rw [hg, mapDelete_of_not_mem subs cid hg]
      rfl
  | cons level rest ih =>
      obtain ⟨subs, ch, sw, mw⟩ := n
      obtain ⟨h1, h2, h3, h4, h5⟩ := WFtrie_inv hwf
      by_cases hlp : level = ['+']
      · subst hlp
        cases sw with
        | none => exact removeRec_plus_none subs ch mw rest i cid
        | some c =>
            have hrec : removeSubscriptionRecursive c rest (i + 1) cid =
                (c, false) := by
              refine ih c (h4 c rfl) (i + 1) ?_
              intro x hst
              exact habs x ((Stored_cons_iff _ _ _ _ _ _ _).mpr
                (Or.inr (Or.inl ⟨rfl, c, rfl, hst⟩)))
            rw [removeRec_plus_some]
            simp only [hrec, Bool.false_and, Bool.false_eq_true, if_false]
      · by_cases hlh : level = ['#']
        · subst hlh
          cases mw with
          | none => exact removeRec_hash_none subs ch sw rest i cid
          | some m =>
              obtain ⟨msubs, mch, msw, mmw⟩ := m
              have hwfm := WFtrie_inv (h5 _ rfl)
              have hg : mapGet msubs cid = none := by
                cases hgv : mapGet msubs cid with
                | none => rfl
                | some v =>
                    exfalso
                    have hkey := hwfm.1.2 _ (mapGet_mem hgv)
                    refine habs v ((Stored_cons_iff _ _ _ _ _ _ _).mpr
                      (Or.inl ⟨rfl, rfl, ⟨msubs, mch, msw, mmw⟩, rfl, ?_⟩))
                      hkey.symm
                    exact List.mem_map_of_mem Prod.snd (mapGet_mem hgv)
              rw [removeRec_hash_some]
              simp only [hg, Option.isSome_none, Bool.false_and,
                Bool.false_eq_true, if_false, mapDelete_of_not_mem msubs cid hg]
        · cases hg : mapGet ch level with
          | none =>
              rw [removeRec_lit _ _ _ _ _ _ _ _ hlp hlh, hg]
          | some c =>
              have hrec : removeSubscriptionRecursive c rest (i + 1) cid =
                  (c, false) := by
                refine ih c (h3 _ (mapGet_mem hg)) (i + 1) ?_
                intro x hst
                refine habs x ?_
                rw [show normLevels (level :: rest) = level :: normLevels rest from by
                  simp [normLevels, hlh]]
                exact (Stored_cons_iff _ _ _ _ _ _ _).mpr
                  (Or.inr (Or.inr ⟨hlp, hlh, c, hg, hst⟩))
              rw [removeRec_lit _ _ _ _ _ _ _ _ hlp hlh, hg]
              simp only [hrec, Bool.false_and, Bool.false_eq_true, if_false]
              rw [mapSet_self ch level c hg]

theorem mem_findRec_remove (entries : List SubEntry) (time : Nat)
    (topicRemoved clientRemoved topic : Str)
    (hvf : ∀ e ∈ entries, validateTopicFilter e.filter = true)
    (hnd : (entries.map fun e => (e.filter, e.client)).Nodup)
    (hvr : validateTopicFilter topicRemoved = true)
    (hvt : validatePublishTopic topic = true) (x : Subscription) :
    x ∈ findSubscribersRecursive
        (removeSubscription (buildTrie entries time) topicRemoved clientRemoved)
        (splitTopic topic) 0 ↔
      ∃ e ∈ entries, ¬(e.filter = topicRemoved ∧ e.client = clientRemoved) ∧
        x = entrySub e time ∧ topicMatches e.filter topic = true := by
  rw [splitTopic_eq_jsSplit, mem_findRec _ (levels_not_wildcard hvt) _ 0 x]
  have hnorm : normLevels (splitTopic topicRemoved) = jsSplit topicRemoved := by
    rw [splitTopic_eq_jsSplit]
    exact normLevels_of_validLevels (validLevels_of_validateTopicFilter hvr)
  constructor
  · rintro ⟨p, hst, hm⟩
    rw [removeSubscription,
      Stored_remove _ _ (WFtrie_buildTrie entries time) 0 _ p x, hnorm] at hst
    rcases hst with ⟨hst, hside⟩
    rcases (Stored_buildTrie time p x entries hvf hnd).mp hst with ⟨e, he, hp, hx⟩
    refine ⟨e, he, ?_, hx, ?_⟩
    · rintro ⟨hf, hc⟩
      apply hside
      refine ⟨by rw [hp, hf], ?_⟩
      rw [hx]
      exact hc
    · rw [topicMatches_eq_stored _ _ (hvf e he), ← hp]
      exact hm
  · rintro ⟨e, he, hne, hx, hm⟩
    refine ⟨jsSplit e.filter, ?_, ?_⟩
    · rw [removeSubscription,
        Stored_remove _ _ (WFtrie_buildTrie entries time) 0 _ _ x, hnorm]
      refine ⟨(Stored_buildTrie time _ x entries hvf hnd).mpr ⟨e, he, rfl, hx⟩, ?_⟩
      rintro ⟨hp, hc⟩
      apply hne
      refine ⟨jsSplit_injective hp, ?_⟩
      rw [hx] at hc
      exact hc
    · rw [← topicMatches_eq_stored _ _ (hvf e he)]
      exact hm

theorem findSubscribers_dedup_spec (root : TrieNode) (topic : Str) :
    (∀ cid : Str,
      (∃ s ∈ findSubscribers root topic, s.clientId = cid) ↔
      (∃ x ∈ findSubscribersRecursive root (splitTopic topic) 0,
        x.clientId = cid)) ∧
    (∀ s ∈ findSubscribers root topic,
      s ∈ findSubscribersRecursive root (splitTopic topic) 0 ∧
      ∀ x ∈ findSubscribersRecursive root (splitTopic topic) 0,
        x.clientId = s.clientId → x.qos ≤ s.qos) := by
  obtain ⟨w1, w2, w3, w4⟩ := dedup_foldl
    (findSubscribersRecursive root (splitTopic topic) 0) [] WFsubs_nil
  have hfs : findSubscribers root topic =
      ((findSubscribersRecursive root (splitTopic topic) 0).foldl
        (fun acc s =>
          match mapGet acc s.clientId with
          | none => mapSet acc s.clientId s
          | some existing =>
              if s.qos > existing.qos then mapSet acc s.clientId s else acc)
        []).map Prod.snd := rfl
  constructor
  · intro cid
    constructor
    · rintro ⟨s, hs, hcid⟩
      rw [hfs] at hs
      rcases List.mem_map.mp hs with ⟨pr, hpr, hsnd⟩
      rcases w2 pr hpr with hL | hA
      · exact ⟨pr.2, hL, by rw [hsnd, hcid]⟩
      · simp at hA
    · rintro ⟨x, hx, hcid⟩
      rcases w4 x hx with ⟨v', hv', _⟩
      refine ⟨v', by rw [hfs]; exact List.mem_map_of_mem Prod.snd (mapGet_mem hv'), ?_⟩
      have hkey := w1.2 _ (mapGet_mem hv')
      rw [← hkey, hcid]
  · intro s hs
    rw [hfs] at hs
    rcases List.mem_map.mp hs with ⟨pr, hpr, hsnd⟩
    rcases w2 pr hpr with hL | hA
    swap
    · simp at hA
    refine ⟨by rw [← hsnd]; exact hL, ?_⟩
    intro x hx hcid
    rcases w4 x hx with ⟨v', hv', hle⟩
    have hg := mapGet_of_mem_nodup w1.1 hpr
    rw [w1.2 _ hpr, hsnd] at hg
    rw [hcid] at hv'
    rw [hg] at hv'
    injection hv' with hv'
    rw [← hv'] at hle
    exact hle

/-- C10 (amended): for a Topic Index built from entries with valid filters
and distinct `(filter, clientId)` pairs, removing `(topicRemoved,
clientRemoved)` with `topicRemoved` a valid filter affects only that
client's subscription at exactly that filter: for every other client and
every wildcard-free topic, membership and qos in `findSubscribers` are
unchanged; the removed client keeps exactly its subscriptions at other
filters; and removing a pair that was never inserted leaves
`findSubscribers` unchanged.  (The unamended claim, which also covers
filters rejected by `validateTopicFilter`, is refuted by
`C10_counterexample`: removing the never-inserted invalid filter `a/#/b`
deletes the subscription stored for `a/#`.) -/
theorem C10_removeSubscription_frame (entries : List SubEntry) (time : Nat)
    (topicRemoved clientRemoved topic : Str)
    (hvf : ∀ e ∈ entries, validateTopicFilter e.filter = true)
    (hnd : (entries.map fun e => (e.filter, e.client)).Nodup)
    (hvr : validateTopicFilter topicRemoved = true)
    (hvt : validatePublishTopic topic = true) :
    (∀ cid : Str, cid ≠ clientRemoved →
      ((∃ s ∈ findSubscribers
          (removeSubscription (buildTrie entries time) topicRemoved clientRemoved)
          topic, s.clientId = cid) ↔
        (∃ s ∈ findSubscribers (buildTrie entries time) topic,
          s.clientId = cid)) ∧
      (∀ sR sT : Subscription,
        sR ∈ findSubscribers
          (removeSubscription (buildTrie entries time) topicRemoved clientRemoved)
          topic →
        sT ∈ findSubscribers (buildTrie entries time) topic →
        sR.clientId = cid → sT.clientId = cid → sR.qos = sT.qos)) ∧
    ((∃ s ∈ findSubscribers
        (removeSubscription (buildTrie entries time) topicRemoved clientRemoved)
        topic, s.clientId = clientRemoved) ↔
      (∃ e ∈ entries, e.client = clientRemoved ∧ e.filter ≠ topicRemoved ∧
        topicMatches e.filter topic = true)) ∧
    ((∀ e ∈ entries, ¬(e.filter = topicRemoved ∧ e.client = clientRemoved)) →
      findSubscribers
        (removeSubscription (buildTrie entries time) topicRemoved clientRemoved)
        topic = findSubscribers (buildTrie entries time) topic) := by
  have hmemT := mem_findRec_buildTrie entries time topic hvf hnd hvt
  have hmemR := mem_findRec_remove entries time topicRemoved clientRemoved topic
    hvf hnd hvr hvt
  obtain ⟨aT, bT⟩ := findSubscribers_dedup_spec (buildTrie entries time) topic
  obtain ⟨aR, bR⟩ := findSubscribers_dedup_spec
    (removeSubscription (buildTrie entries time) topicRemoved clientRemoved) topic
  have hsame : ∀ (cid : Str) (x : Subscription), cid ≠ clientRemoved →
      x.clientId = cid →
      (x ∈ findSubscribersRecursive
          (removeSubscription (buildTrie entries time) topicRemoved clientRemoved)
          (splitTopic topic) 0 ↔
        x ∈ findSubscribersRecursive (buildTrie entries time)
          (splitTopic topic) 0) := by
    intro cid x hne hcid
    rw [hmemT x, hmemR x]
    constructor
    · rintro ⟨e, he, _, hx, hm⟩
      exact ⟨e, he, hx, hm⟩
    · rintro ⟨e, he, hx, hm⟩
      refine ⟨e, he, ?_, hx, hm⟩
      rintro ⟨_, hc⟩
      apply hne
      rw [← hcid, hx]
      exact hc
  refine ⟨?_, ?_, ?_⟩
  · intro cid hne
    constructor
    · rw [aR cid, aT cid]
      constructor
      · rintro ⟨x, hx, hcid⟩
        exact ⟨x, (hsame cid x hne hcid).mp hx, hcid⟩
      · rintro ⟨x, hx, hcid⟩
        exact ⟨x, (hsame cid x hne hcid).mpr hx, hcid⟩
    · intro sR sT hsR hsT hcR hcT
      obtain ⟨hmR, hmaxR⟩ := bR sR hsR
      obtain ⟨hmT, hmaxT⟩ := bT sT hsT
      have h1 : sR.qos ≤ sT.qos := by
        refine hmaxT sR ?_ (by rw [hcR, hcT])
        exact (hsame cid sR hne hcR).mp hmR
      have h2 : sT.qos ≤ sR.qos := by
        refine hmaxR sT ?_ (by rw [hcT, hcR])
        exact (hsame cid sT hne hcT).mpr hmT
      exact le_antisymm h1 h2
  · rw [aR clientRemoved]
    constructor
    · rintro ⟨x, hx, hcid⟩
      rcases (hmemR x).mp hx with ⟨e, he, hpair, hx', hm⟩
      refine ⟨e, he, ?_, ?_, hm⟩
      · rw [← hcid, hx']
        rfl
      · intro hf
        apply hpair
        refine ⟨hf, ?_⟩
        rw [← hcid, hx']
        rfl
    · rintro ⟨e, he, hc, hf, hm⟩
      refine ⟨entrySub e time, (hmemR _).mpr ⟨e, he, ?_, rfl, hm⟩, hc⟩
      rintro ⟨hf', _⟩
      exact hf hf'
  · intro habs
    have hnorm : normLevels (splitTopic topicRemoved) = jsSplit topicRemoved := by
      rw [splitTopic_eq_jsSplit]
      exact normLevels_of_validLevels (validLevels_of_validateTopicFilter hvr)
    have hnoop := removeRec_no_op (splitTopic topicRemoved)
      (buildTrie entries time) (WFtrie_buildTrie entries time) 0 clientRemoved ?_
    · rw [removeSubscription, hnoop]
    · intro x hst
      rw [hnorm] at hst
      rcases (Stored_buildTrie time _ x entries hvf hnd).mp hst with ⟨e, he, hp, hx⟩
      have hf : e.filter = topicRemoved := jsSplit_injective hp.symm
      intro hc
      exact habs e he ⟨hf, by rw [hx] at hc; exact hc⟩

/-- C10 counterexample: with the valid filter `a/#` inserted for client
`c`, calling `removeSubscription` with the never-inserted pair
(`a/#/b`, `c`) — an invalid filter whose insertion path coincides with
`a/#` — removes the `a/#` subscription: `findSubscribers("a/x")` changes
from `[c]` to `[]`, refuting the claim as stated. -/
theorem C10_counterexample :
    (findSubscribers (addSubscription createNode ['a', '/', '#'] ['c'] 1 0)
        ['a', '/', 'x']).map (fun s => s.clientId) = [['c']] ∧
      findSubscribers
        (removeSubscription (addSubscription createNode ['a', '/', '#'] ['c'] 1 0)
          ['a', '/', '#', '/', 'b'] ['c'])
        ['a', '/', 'x'] = [] := by
  constructor
  · rfl
  · rfl

/-- C10 witness: the amended frame property instantiated on one entry
`(filter "a", client "c", qos 1)`, removing the never-inserted pair
`("x", "d")`, topic `a`. -/
theorem C10_removeSubscription_frame_witness :
    validateTopicFilter ['x'] = true ∧
    findSubscribers
        (removeSubscription (buildTrie [⟨['a'], ['c'], 1⟩] 3) ['x'] ['d'])
        ['a'] =
      findSubscribers (buildTrie [⟨['a'], ['c'], 1⟩] 3) ['a'] :=
  ⟨by decide,
    (C10_removeSubscription_frame [⟨['a'], ['c'], 1⟩] 3 ['x'] ['d'] ['a']
      (by decide) (by decide) (by decide) (by decide)).2.2 (by decide)⟩

theorem mapDelete_mapSet_of_none {κ α : Type} [DecidableEq κ]
    (m : List (κ × α)) (k : κ) (v : α) (h : mapGet m k = none) :
    mapDelete (mapSet m k v) k = m := by
  induction m with
  | nil => simp [mapSet, mapDelete]
  | cons pr rest ih =>
      obtain ⟨k₀, v₀⟩ := pr
      by_cases h₀ : k₀ = k
      · simp [mapGet, h₀] at h
      · simp only [mapGet, if_neg h₀] at h
        simp [mapSet, mapDelete, h₀, ih h]

/-- C3: broker as QoS 2 receiver.  On the first PUBLISH with a given
(client, packet-id) pair, `handleQoS2Publish` records the pair, emits
PUBREC and routes the message (the `messageReceived` event) exactly once;
on the duplicate PUBLISH it re-emits PUBREC only and leaves the state
unchanged; on PUBREL, `handleAcknowledgment` emits PUBCOMP and drops the
record. -/
theorem C3_qos2_exactly_once (s : QoSHandlerState) (clientId : Str)
    (packetId : Nat) (message : Message)
    (hfresh : mapGet s.qos2Received (clientId, packetId) = none) :
    (handleQoS2Publish s clientId packetId message).2 =
      [.sendPubrec clientId packetId, .messageReceived clientId message] ∧
    mapGet (handleQoS2Publish s clientId packetId message).1.qos2Received
      (clientId, packetId) = some message ∧
    handleQoS2Publish (handleQoS2Publish s clientId packetId message).1
        clientId packetId message =
      ((handleQoS2Publish s clientId packetId message).1,
        [.sendPubrec clientId packetId]) ∧
    (handleAcknowledgment (handleQoS2Publish s clientId packetId message).1
        packetId clientId .pubrel).2 = [.sendPubcomp clientId packetId] ∧
    mapGet (handleAcknowledgment (handleQoS2Publish s clientId packetId message).1
        packetId clientId .pubrel).1.qos2Received (clientId, packetId) = none := by
  have h1 : handleQoS2Publish s clientId packetId message =
      ({ s with qos2Received :=
          mapSet s.qos2Received (clientId, packetId) message },
        [.sendPubrec clientId packetId, .messageReceived clientId message]) := by
    simp [handleQoS2Publish, hfresh]
  have hget : mapGet (mapSet s.qos2Received (clientId, packetId) message)
      (clientId, packetId) = some message := by
    rw [mapGet_mapSet, if_pos rfl]
  refine ⟨by rw [h1], by rw [h1]; exact hget, ?_, ?_, ?_⟩
  · rw [h1]
    simp [handleQoS2Publish, hget]
  · rw [h1]
    simp [handleAcknowledgment, hget]
  · rw [h1]
    simp only [handleAcknowledgment, hget, Option.isSome_some, if_true]
    rw [mapDelete_mapSet_of_none s.qos2Received (clientId, packetId) message
      hfresh]
    exact hfresh

/-- C3 witness: the exactly-once handshake run from the empty state with
client `p` and packet-id 9. -/
theorem C3_qos2_exactly_once_witness :
    mapGet QoSHandlerState.empty.qos2Received (['p'], 9) = none ∧
    (handleQoS2Publish QoSHandlerState.empty ['p'] 9
      ⟨[], ['t'], [1], 2, false, 0, ['p'], some 9, none⟩).2 =
      [.sendPubrec ['p'] 9,
        .messageReceived ['p'] ⟨[], ['t'], [1], 2, false, 0, ['p'], some 9, none⟩] :=
  ⟨rfl, (C3_qos2_exactly_once QoSHandlerState.empty ['p'] 9
    ⟨[], ['t'], [1], 2, false, 0, ['p'], some 9, none⟩ rfl).1⟩

/-- C9: an acknowledgment for a (client, packet-id) pair with no matching
entry in the QoS engine state — no QoS 1 inflight for PUBACK, no QoS 2
inflight for PUBREC or PUBCOMP, no received-QoS-2 record for PUBREL —
leaves the state unchanged and emits no event. -/
theorem C9_ack_no_match_noop (s : QoSHandlerState) (packetId : Nat)
    (clientId : Str) (kind : AckKind)
    (h : match kind with
      | .puback => mapGet s.inflightQoS1 (clientId, packetId) = none
      | .pubrec => mapGet s.inflightQoS2 (clientId, packetId) = none
      | .pubrel => mapGet s.qos2Received (clientId, packetId) = none
      | .pubcomp => mapGet s.inflightQoS2 (clientId, packetId) = none) :
    handleAcknowledgment s packetId clientId kind = (s, []) := by
  cases kind <;> simp only at h <;> simp [handleAcknowledgment, h]

/-- C9 witness: a PUBACK for packet-id 7 of client `a` against the empty
state. -/
theorem C9_ack_no_match_noop_witness :
    mapGet QoSHandlerState.empty.inflightQoS1 (['a'], 7) = none ∧
    handleAcknowledgment QoSHandlerState.empty 7 ['a'] .puback =
      (QoSHandlerState.empty, []) :=
  ⟨rfl, C9_ack_no_match_noop QoSHandlerState.empty 7 ['a'] .puback rfl⟩

theorem retained_invariant_aux (ops : List RetainedMutation) :
    ∀ store : List (Str × Message),
      (store.map Prod.fst).Nodup → (∀ pr ∈ store, pr.2.payload ≠ []) →
      (((ops.foldl applyRetainedMutation store).map Prod.fst).Nodup ∧
        ∀ pr ∈ ops.foldl applyRetainedMutation store, pr.2.payload ≠ []) := by
  induction ops with
  | nil => exact fun store hnd hne => ⟨hnd, hne⟩
  | cons op rest ih =>
      intro store hnd hne
      rw [List.foldl_cons]
      cases op with
      | route m =>
          by_cases hr : m.retain
          · by_cases hp : m.payload.length = 0
            · have happ : applyRetainedMutation store (.route m) =
                  mapDelete store m.topic := by
                simp [applyRetainedMutation, routeRetained, hr, hp]
              rw [happ]
              exact ih _ ((mapDelete_sublist store m.topic).map Prod.fst |>.nodup hnd)
                (fun pr hpr => hne pr ((mapDelete_sublist store m.topic).mem hpr))
            · have happ : applyRetainedMutation store (.route m) =
                  mapSet store m.topic m := by
                simp [applyRetainedMutation, routeRetained, hr, hp]
              rw [happ]
              refine ih _ (nodup_keys_mapSet store m.topic m hnd) ?_
              intro pr hpr
              rcases mem_mapSet hpr with h | h
              · rw [h]
                show m.payload ≠ []
                intro hcontra
                apply hp
                rw [hcontra]
                rfl
              · exact hne pr h
          · have happ : applyRetainedMutation store (.route m) = store := by
              simp [applyRetainedMutation, routeRetained, hr]
            rw [happ]
            exact ih _ hnd hne
      | del t =>
          have happ : applyRetainedMutation store (.del t) = mapDelete store t := rfl
          rw [happ]
          exact ih _ ((mapDelete_sublist store t).map Prod.fst |>.nodup hnd)
            (fun pr hpr => hne pr ((mapDelete_sublist store t).mem hpr))
      | clearAll =>
          have happ : applyRetainedMutation store .clearAll = [] := rfl
          rw [happ]
          exact ih [] List.nodup_nil (by simp)

/-- C4: the retained store never holds an empty-payload entry — after any
sequence of retained-store mutations from the empty store, every stored
message has a non-empty payload; a retained publish with empty payload
deletes the entry for its topic; after a retained publish with non-empty
payload, looking up the topic returns that message; and a publish that is
not retained, or addresses a different topic, leaves the lookup
unchanged. -/
theorem C4_retained_store (ops : List RetainedMutation) (m : Message)
    (t : Str) (store : List (Str × Message)) :
    (∀ m' : Message, mapGet (runRetained ops) t = some m' → m'.payload ≠ []) ∧
    (m.retain = true → m.payload ≠ [] →
      getRetainedMessage (routeRetained store m) m.topic = some m) ∧
    (m.retain = true → m.payload = [] →
      getRetainedMessage (routeRetained (runRetained ops) m) m.topic = none) ∧
    ((m.retain = false ∨ m.topic ≠ t) →
      getRetainedMessage (routeRetained store m) t = getRetainedMessage store t) := by
  obtain ⟨hnd, hne⟩ := retained_invariant_aux ops [] List.nodup_nil (by simp)
  refine ⟨?_, ?_, ?_, ?_⟩
  · intro m' hget
    exact hne _ (mapGet_mem hget)
  · intro hr hp
    have hlen : ¬ m.payload.length = 0 := by
      intro h
      exact hp (List.length_eq_zero.mp h)
    unfold getRetainedMessage routeRetained
    rw [if_pos hr, if_neg hlen, mapGet_mapSet, if_pos rfl]
  · intro hr hp
    have hlen : m.payload.length = 0 := by rw [hp]; rfl
    unfold getRetainedMessage routeRetained
    rw [if_pos hr, if_pos hlen]
    exact mapGet_mapDelete_self (runRetained ops) m.topic hnd
  · rintro (hr | ht)
    · unfold getRetainedMessage routeRetained
      rw [hr]
      simp
    · unfold getRetainedMessage routeRetained
      by_cases hr : m.retain
      · rw [if_pos hr]
        by_cases hp : m.payload.length = 0
        · rw [if_pos hp]
          exact mapGet_mapDelete_ne store m.topic t (fun hh => ht hh.symm)
        · rw [if_neg hp, mapGet_mapSet, if_neg ht]
      · rw [if_neg hr]

/-- C4 witness: storing a retained one-byte message on topic `t` from the
empty store returns it on lookup. -/
theorem C4_retained_store_witness :
    (⟨[], ['t'], [1], 0, true, 0, ['p'], none, none⟩ : Message).retain = true ∧
    getRetainedMessage
        (routeRetained [] ⟨[], ['t'], [1], 0, true, 0, ['p'], none, none⟩)
        ['t'] =
      some ⟨[], ['t'], [1], 0, true, 0, ['p'], none, none⟩ :=
  ⟨rfl, (C4_retained_store [] ⟨[], ['t'], [1], 0, true, 0, ['p'], none, none⟩
    ['t'] []).2.1 rfl (by decide)⟩

theorem retryEntry_key (now : Nat) (k : Str × Nat) (e : InflightMessage)
    {pr : (Str × Nat) × InflightMessage} (h : (retryEntry now k e).1 = some pr) :
    pr.1 = k := by
  unfold retryEntry at h
  split at h
  · split at h
    · cases h
    · injection h with h
      rw [← h]
  · injection h with h
    rw [← h]

theorem retryMap_keys_subset (now : Nat)
    (m : List ((Str × Nat) × InflightMessage)) :
    ∀ k ∈ (retryMap now m).1.map Prod.fst, k ∈ m.map Prod.fst := by
  induction m with
  | nil => simp [retryMap]
  | cons hd rest ih =>
      obtain ⟨k₀, e₀⟩ := hd
      intro k hk
      simp only [retryMap, List.map_append, List.mem_append] at hk
      rcases hk with hk | hk
      · rcases List.mem_map.mp hk with ⟨pr, hpr, hfst⟩
        rw [Option.mem_toList] at hpr
        have := retryEntry_key now k₀ e₀ hpr
        rw [← hfst, this]
        rw [List.map_cons]
        exact List.mem_cons_self _ _
      · exact List.mem_cons_of_mem _ (ih k hk)

theorem retryMap_get (now : Nat) (m : List ((Str × Nat) × InflightMessage))
    (hnd : (m.map Prod.fst).Nodup) (k : Str × Nat) (e : InflightMessage)
    (hget : mapGet m k = some e) :
    mapGet (retryMap now m).1 k = ((retryEntry now k e).1).map Prod.snd := by
  induction m with
  | nil => simp [mapGet] at hget
  | cons hd rest ih =>
      obtain ⟨k₀, e₀⟩ := hd
      simp only [List.map_cons, List.nodup_cons] at hnd
      by_cases hk : k₀ = k
      · subst hk
        simp only [mapGet, if_pos rfl] at hget
        injection hget with hget
        subst hget
        have hnone : mapGet (retryMap now rest).1 k₀ = none := by
          rw [mapGet_eq_none_iff]
          intro hmem
          exact hnd.1 (retryMap_keys_subset now rest k₀ hmem)
        rcases hre : (retryEntry now k₀ e₀).1 with _ | pr
        · simp only [retryMap, hre, Option.toList_none, List.nil_append]
          rw [hnone]
          rfl
        · have hkey := retryEntry_key now k₀ e₀ hre
          simp only [retryMap, hre, Option.toList_some, List.singleton_append]
          obtain ⟨pk, pe⟩ := pr
          simp only at hkey
          subst hkey
          simp [mapGet]
      · simp only [mapGet, if_neg hk] at hget
        rcases hre : (retryEntry now k₀ e₀).1 with _ | pr
        · simp only [retryMap, hre, Option.toList_none, List.nil_append]
          exact ih hnd.2 hget
        · have hkey := retryEntry_key now k₀ e₀ hre
          simp only [retryMap, hre, Option.toList_some, List.singleton_append]
          obtain ⟨pk, pe⟩ := pr
          simp only at hkey
          subst hkey
          simp only [mapGet, if_neg hk]
          exact ih hnd.2 hget

theorem retryMap_events_mem (now : Nat)
    (m : List ((Str × Nat) × InflightMessage)) (k : Str × Nat)
    (e : InflightMessage) (hmem : (k, e) ∈ m) :
    ∀ ev ∈ (retryEntry now k e).2, ev ∈ (retryMap now m).2 := by
  induction m with
  | nil => simp at hmem
  | cons hd rest ih =>
      obtain ⟨k₀, e₀⟩ := hd
      intro ev hev
      simp only [retryMap, List.mem_append]
      rcases List.mem_cons.mp hmem with h | h
      · injection h with h1 h2
        subst h1
        subst h2
        exact Or.inl hev
      · exact Or.inr (ih h ev hev)

theorem retryEntry_no_close (now : Nat) (k : Str × Nat) (e : InflightMessage)
    (c : Str) : QoSEvent.closeClient c ∉ (retryEntry now k e).2 := by
  unfold retryEntry
  split
  · split <;> simp
  · simp

theorem retryMap_no_close (now : Nat)
    (m : List ((Str × Nat) × InflightMessage)) (c : Str) :
    QoSEvent.closeClient c ∉ (retryMap now m).2 := by
  induction m with
  | nil => simp [retryMap]
  | cons hd rest ih =>
      obtain ⟨k₀, e₀⟩ := hd
      simp only [retryMap, List.mem_append]
      rintro (h | h)
      · exact retryEntry_no_close now k₀ e₀ c h
      · exact ih h

/-- C6 (amended): the retry sweep, for a timed-out QoS 1 inflight entry
(`now - timestamp > retryTimeoutMs`): when `retryCount ≥ maxRetries`
(i.e. after `maxRetries` retries — the source abandons at `>=`, not the
claimed `>`), the entry is removed from the inflight map and a
`messageDeliveryFailed` event with reason `Max retries exceeded` is
emitted; when `retryCount < maxRetries`, the PUBLISH is redelivered with
the dup flag set and `retryCount` incremented; and no connection-close
event is ever emitted by the sweep.  (The boundary `retry_count >
max_retries` of the unamended claim is refuted by `C6_counterexample`.) -/
theorem C6_retry_budget (s : QoSHandlerState) (now : Nat) (clientId : Str)
    (packetId : Nat) (entry : InflightMessage)
    (hnd : (s.inflightQoS1.map Prod.fst).Nodup)
    (hget : mapGet s.inflightQoS1 (clientId, packetId) = some entry)
    (htime : now - entry.timestamp > retryTimeoutMs) :
    (entry.retryCount ≥ maxRetries →
      mapGet (retryInflightMessages s now).1.inflightQoS1
        (clientId, packetId) = none ∧
      QoSEvent.messageDeliveryFailed entry.clientId entry.message
        ['M','a','x',' ','r','e','t','r','i','e','s',' ',
         'e','x','c','e','e','d','e','d'] ∈ (retryInflightMessages s now).2) ∧
    (entry.retryCount < maxRetries →
      mapGet (retryInflightMessages s now).1.inflightQoS1
        (clientId, packetId) =
        some { entry with retryCount := entry.retryCount + 1,
                          timestamp := now } ∧
      QoSEvent.deliverMessage entry.clientId
        { entry.message with dup := some true } ∈
        (retryInflightMessages s now).2) ∧
    (∀ c : Str, QoSEvent.closeClient c ∉ (retryInflightMessages s now).2) := by
  have hres : retryInflightMessages s now =
      ({ s with inflightQoS1 := (retryMap now s.inflightQoS1).1,
                inflightQoS2 := (retryMap now s.inflightQoS2).1 },
        (retryMap now s.inflightQoS1).2 ++ (retryMap now s.inflightQoS2).2) := rfl
  refine ⟨?_, ?_, ?_⟩
  · intro hge
    have hre : retryEntry now (clientId, packetId) entry =
        (none, [QoSEvent.messageDeliveryFailed entry.clientId entry.message
          ['M','a','x',' ','r','e','t','r','i','e','s',' ',
           'e','x','c','e','e','d','e','d']]) := by
      unfold retryEntry
      rw [if_pos htime, if_pos hge]
    constructor
    · rw [hres]
      show mapGet (retryMap now s.inflightQoS1).1 (clientId, packetId) = none
      rw [retryMap_get now s.inflightQoS1 hnd _ entry hget, hre]
      rfl
    · rw [hres]
      show _ ∈ (retryMap now s.inflightQoS1).2 ++ (retryMap now s.inflightQoS2).2
      refine List.mem_append.mpr (Or.inl ?_)
      refine retryMap_events_mem now s.inflightQoS1 _ entry (mapGet_mem hget) _ ?_
      rw [hre]
      simp
  · intro hlt
    have hre : retryEntry now (clientId, packetId) entry =
        (some ((clientId, packetId),
          { entry with retryCount := entry.retryCount + 1, timestamp := now }),
         [QoSEvent.deliverMessage entry.clientId
            { entry.message with dup := some true },
          QoSEvent.messageRetried entry.clientId entry.message
            (entry.retryCount + 1)]) := by
      unfold retryEntry
      rw [if_pos htime, if_neg (not_le.mpr hlt)]
    constructor
    · rw [hres]
      show mapGet (retryMap now s.inflightQoS1).1 (clientId, packetId) = some _
      rw [retryMap_get now s.inflightQoS1 hnd _ entry hget, hre]
      rfl
    · rw [hres]
      show _ ∈ (retryMap now s.inflightQoS1).2 ++ (retryMap now s.inflightQoS2).2
      refine List.mem_append.mpr (Or.inl ?_)
      refine retryMap_events_mem now s.inflightQoS1 _ entry (mapGet_mem hget) _ ?_
      rw [hre]
      simp
  · intro c
    rw [hres]
    intro hmem
    rcases List.mem_append.mp hmem with h | h
    · exact retryMap_no_close now s.inflightQoS1 c h
    · exact retryMap_no_close now s.inflightQoS2 c h

/-- C6 counterexample: an inflight entry whose `retryCount` equals 3 (so
`retry_count > max_retries` is false and the claim, as stated, demands a
dup retransmission) is instead abandoned by the sweep: the inflight map
becomes empty and the only event is the delivery failure. -/
theorem C6_counterexample :
    ¬ (3 > maxRetries) ∧
    retryInflightMessages
        ⟨[((['c'], 1),
            ⟨⟨[], ['t'], [1], 1, false, 0, ['p'], some 1, none⟩, ['c'], 0, 3⟩)],
          [], []⟩ 6000 =
      (⟨[], [], []⟩,
        [QoSEvent.messageDeliveryFailed ['c']
          ⟨[], ['t'], [1], 1, false, 0, ['p'], some 1, none⟩
          ['M','a','x',' ','r','e','t','r','i','e','s',' ',
           'e','x','c','e','e','d','e','d']]) := by
  constructor
  · decide
  · rfl

/-- C6 witness: the amended budget rule applied to a concrete timed-out
entry with `retryCount = 1 < maxRetries`, checking the dup retransmission. -/
theorem C6_retry_budget_witness :
    (1 < maxRetries ∧ 6000 - 0 > retryTimeoutMs) ∧
    QoSEvent.deliverMessage ['c']
        { (⟨[], ['t'], [1], 1, false, 0, ['p'], some 1, none⟩ : Message) with
            dup := some true } ∈
      (retryInflightMessages
        ⟨[((['c'], 1),
            ⟨⟨[], ['t'], [1], 1, false, 0, ['p'], some 1, none⟩, ['c'], 0, 1⟩)],
          [], []⟩ 6000).2 :=
  ⟨⟨by decide, by decide⟩,
    ((C6_retry_budget
      ⟨[((['c'], 1),
          ⟨⟨[], ['t'], [1], 1, false, 0, ['p'], some 1, none⟩, ['c'], 0, 1⟩)],
        [], []⟩ 6000 ['c'] 1
      ⟨⟨[], ['t'], [1], 1, false, 0, ['p'], some 1, none⟩, ['c'], 0, 1⟩
      (by decide) rfl (by decide)).2.1 (by decide)).2⟩

/-- C5: in `handleConnect` the CONNACK's `sessionPresent` flag is computed
as `!cleanSession && getSession(clientId) !== null` only after the session
has been created, so on a CONNECT with `cleanSession = false` from a
client with no existing session — where the specified rule requires
`sessionPresent = false` — the broker sends `sessionPresent = true`. -/
theorem C5_sessionPresent_bug :
    mapGet ([] : List (Str × Session)) ['c'] = none ∧
    (connectSessionPresent [] ['c'] false 0).1 = true := by
  constructor
  · rfl
  · rfl

/-- C7 (amended): the keep-alive sweep closes a connection exactly when
`now - lastActivity > keepAlive * 1000 * 1.5` milliseconds, using the
connection's current `keepAlive` value — which `acceptConnection`
initializes to 60 before any CONNECT is processed.  There is no
negotiated-keep-alive guard, and a zero keep-alive does not disable the
check (refuted by `C7_counterexample`): it makes the sweep close the
connection on any positive inactivity. -/
theorem C7_keepalive_sweep (connections : List (Str × ClientConnection))
    (now : Nat) (connectionId : Str) (conn : ClientConnection)
    (hnd : (connections.map Prod.fst).Nodup)
    (hmem : (connectionId, conn) ∈ connections) :
    (connectionId ∈ checkKeepAlive connections now ↔
      now - conn.lastActivity > conn.keepAlive * 1500) ∧
    (acceptConnection connectionId now).keepAlive = 60 := by
  constructor
  · unfold checkKeepAlive
    constructor
    · intro h
      rcases List.mem_map.mp h with ⟨pr, hpr, hfst⟩
      rcases List.mem_filter.mp hpr with ⟨hprm, hcond⟩
      rw [decide_eq_true_eq] at hcond
      have hget₁ := mapGet_of_mem_nodup hnd hprm
      have hget₂ := mapGet_of_mem_nodup hnd hmem
      rw [hfst] at hget₁
      rw [show (connectionId, conn).1 = connectionId from rfl] at hget₂
      have hconn : conn = pr.2 := Option.some.inj (hget₂.symm.trans hget₁)
      rw [← hconn] at hcond
      exact hcond
    · intro h
      refine List.mem_map.mpr ⟨(connectionId, conn), ?_, rfl⟩
      refine List.mem_filter.mpr ⟨hmem, ?_⟩
      rw [decide_eq_true_eq]
      exact h
  · rfl

/-- C7 counterexample: a connection whose negotiated keep-alive is zero is
closed by the very next sweep after any inactivity — `checkKeepAlive`
selects it at `now = 1` with `lastActivity = 0` — contradicting the claim
that a zero keep-alive disables the check; the sweep also applies before
any CONNECT has negotiated a keep-alive. -/
theorem C7_counterexample :
    checkKeepAlive [(['i'], ⟨['i'], [], 0, 0, 0, false⟩)] 1 = [['i']] := by
  rfl

/-- C7 witness: the sweep criterion evaluated on a single fresh connection
with the default keep-alive of 60 seconds. -/
theorem C7_keepalive_sweep_witness :
    ((([(['i'], (⟨['i'], [], 0, 0, 60, true⟩ : ClientConnection))]).map
        Prod.fst).Nodup) ∧
    ((['i'] ∈ checkKeepAlive [(['i'], ⟨['i'], [], 0, 0, 60, true⟩)] 100000 ↔
        100000 - 0 > 60 * 1500) ∧
      (acceptConnection ['i'] 100000).keepAlive = 60) :=
  ⟨by decide,
    (C7_keepalive_sweep [(['i'], ⟨['i'], [], 0, 0, 60, true⟩)] 100000 ['i']
      ⟨['i'], [], 0, 0, 60, true⟩ (by decide)
      (List.mem_singleton.mpr rfl))⟩

/-- C8 (amended): `validatePacket` accepts a packet exactly when its
fixed-header flags are the standard reserved value for its type — 0 for
CONNECT, CONNACK, PUBACK, PUBREC, PUBCOMP, SUBACK, UNSUBACK, PINGREQ,
PINGRESP and DISCONNECT, 0b0010 for SUBSCRIBE and UNSUBSCRIBE, and any
flags whose QoS field is at most 2 for PUBLISH — with a single
deviation: a PUBREL is accepted with flags 0 in addition to the mandated
0b0010; every unknown packet type is rejected.  `parsePacket` rejects a
buffer with fewer bytes than the declared remaining length, while a
buffer with extra trailing bytes is accepted with the payload truncated
to the declared length.  (The unamended claim — PUBREL flags other than
0b0010 always rejected, and longer buffers rejected — is refuted by
`C8_counterexample`.) -/
theorem C8_packet_validation (ptype flags : Nat) (payload : List Nat)
    (rl : Nat) :
    (validatePacket ⟨ptype, flags, payload, rl⟩ = true ↔
      ((ptype = ptCONNECT ∨ ptype = ptCONNACK ∨ ptype = ptPUBACK ∨
        ptype = ptPUBREC ∨ ptype = ptPUBCOMP ∨ ptype = ptSUBACK ∨
        ptype = ptUNSUBACK ∨ ptype = ptPINGREQ ∨ ptype = ptPINGRESP ∨
        ptype = ptDISCONNECT) ∧ flags = 0) ∨
      ((ptype = ptSUBSCRIBE ∨ ptype = ptUNSUBSCRIBE) ∧ flags = 2) ∨
      (ptype = ptPUBLISH ∧ (flags % 8) / 2 ≤ 2) ∨
      (ptype = ptPUBREL ∧ (flags = 0 ∨ flags = 2))) ∧
    (∀ (firstByte : Nat) (restBytes : List Nat) (remLen : Nat)
        (afterLength : List Nat),
      parseRemainingLength restBytes 1 0 = some (remLen, afterLength) →
      afterLength.length < remLen →
      parsePacket (firstByte :: restBytes) = none) ∧
    (∀ (firstByte : Nat) (restBytes : List Nat) (remLen : Nat)
        (afterLength : List Nat),
      parseRemainingLength restBytes 1 0 = some (remLen, afterLength) →
      remLen ≤ afterLength.length →
      parsePacket (firstByte :: restBytes) =
        some ⟨firstByte / 16, firstByte % 16, afterLength.take remLen,
          remLen⟩) := by
  have hrest_ne : ∀ (restBytes : List Nat) (remLen : Nat)
      (afterLength : List Nat),
      parseRemainingLength restBytes 1 0 = some (remLen, afterLength) →
      restBytes ≠ [] := by
    intro restBytes remLen afterLength h hnil
    subst hnil
    cases h
  have hstep : ∀ (firstByte : Nat) (restBytes : List Nat),
      parsePacket (firstByte :: restBytes) =
        if (firstByte :: restBytes).length < 2 then none
        else
          match parseRemainingLength restBytes 1 0 with
          | none => none
          | some (remainingLength, afterLength) =>
              if afterLength.length < remainingLength then none
              else some ⟨firstByte / 16, firstByte % 16,
                afterLength.take remainingLength, remainingLength⟩ :=
    fun _ _ => rfl
  refine ⟨?_, ?_, ?_⟩
  · have hv : validatePacket ⟨ptype, flags, payload, rl⟩ =
        (if ptype = 1 then decide (flags = 0)
         else if ptype = 2 then decide (flags = 0)
         else if ptype = 3 then decide ((flags % 8) / 2 ≤ 2)
         else if ptype = 4 ∨ ptype = 5 ∨ ptype = 6 ∨ ptype = 7 then
           decide (flags = 0 ∨ (ptype = 6 ∧ flags = 2))
         else if ptype = 8 then decide (flags = 2)
         else if ptype = 9 then decide (flags = 0)
         else if ptype = 10 then decide (flags = 2)
         else if ptype = 11 then decide (flags = 0)
         else if ptype = 12 ∨ ptype = 13 ∨ ptype = 14 then
           decide (flags = 0)
         else false) := rfl
    rw [hv]
    by_cases h1 : ptype = 1
    · subst h1
      simp [ptCONNECT, ptCONNACK, ptPUBLISH, ptPUBACK, ptPUBREC, ptPUBREL,
        ptPUBCOMP, ptSUBSCRIBE, ptSUBACK, ptUNSUBSCRIBE, ptUNSUBACK,
        ptPINGREQ, ptPINGRESP, ptDISCONNECT]
    by_cases h2 : ptype = 2
    · subst h2
      simp [ptCONNECT, ptCONNACK, ptPUBLISH, ptPUBACK, ptPUBREC, ptPUBREL,
        ptPUBCOMP, ptSUBSCRIBE, ptSUBACK, ptUNSUBSCRIBE, ptUNSUBACK,
        ptPINGREQ, ptPINGRESP, ptDISCONNECT]
    by_cases h3 : ptype = 3
    · subst h3
      simp [ptCONNECT, ptCONNACK, ptPUBLISH, ptPUBACK, ptPUBREC, ptPUBREL,
        ptPUBCOMP, ptSUBSCRIBE, ptSUBACK, ptUNSUBSCRIBE, ptUNSUBACK,
        ptPINGREQ, ptPINGRESP, ptDISCONNECT]
    by_cases h4 : ptype = 4
    · subst h4
      simp [ptCONNECT, ptCONNACK, ptPUBLISH, ptPUBACK, ptPUBREC, ptPUBREL,
        ptPUBCOMP, ptSUBSCRIBE, ptSUBACK, ptUNSUBSCRIBE, ptUNSUBACK,
        ptPINGREQ, ptPINGRESP, ptDISCONNECT]
    by_cases h5 : ptype = 5
    · subst h5
      simp [ptCONNECT, ptCONNACK, ptPUBLISH, ptPUBACK, ptPUBREC, ptPUBREL,
        ptPUBCOMP, ptSUBSCRIBE, ptSUBACK, ptUNSUBSCRIBE, ptUNSUBACK,
        ptPINGREQ, ptPINGRESP, ptDISCONNECT]
    by_cases h6 : ptype = 6
    · subst h6
      simp [ptCONNECT, ptCONNACK, ptPUBLISH, ptPUBACK, ptPUBREC, ptPUBREL,
        ptPUBCOMP, ptSUBSCRIBE, ptSUBACK, ptUNSUBSCRIBE, ptUNSUBACK,
        ptPINGREQ, ptPINGRESP, ptDISCONNECT]
    by_cases h7 : ptype = 7
    · subst h7
      simp [ptCONNECT, ptCONNACK, ptPUBLISH, ptPUBACK, ptPUBREC, ptPUBREL,
        ptPUBCOMP, ptSUBSCRIBE, ptSUBACK, ptUNSUBSCRIBE, ptUNSUBACK,
        ptPINGREQ, ptPINGRESP, ptDISCONNECT]
    by_cases h8 : ptype = 8
    · subst h8
      simp [ptCONNECT, ptCONNACK, ptPUBLISH, ptPUBACK, ptPUBREC, ptPUBREL,
        ptPUBCOMP, ptSUBSCRIBE, ptSUBACK, ptUNSUBSCRIBE, ptUNSUBACK,
        ptPINGREQ, ptPINGRESP, ptDISCONNECT]
    by_cases h9 : ptype = 9
    · subst h9
      simp [ptCONNECT, ptCONNACK, ptPUBLISH, ptPUBACK, ptPUBREC, ptPUBREL,
        ptPUBCOMP, ptSUBSCRIBE, ptSUBACK, ptUNSUBSCRIBE, ptUNSUBACK,
        ptPINGREQ, ptPINGRESP, ptDISCONNECT]
    by_cases h10 : ptype = 10
    · subst h10
      simp [ptCONNECT, ptCONNACK, ptPUBLISH, ptPUBACK, ptPUBREC, ptPUBREL,
        ptPUBCOMP, ptSUBSCRIBE, ptSUBACK, ptUNSUBSCRIBE, ptUNSUBACK,
        ptPINGREQ, ptPINGRESP, ptDISCONNECT]
    by_cases h11 : ptype = 11
    · subst h11
      simp [ptCONNECT, ptCONNACK, ptPUBLISH, ptPUBACK, ptPUBREC, ptPUBREL,
        ptPUBCOMP, ptSUBSCRIBE, ptSUBACK, ptUNSUBSCRIBE, ptUNSUBACK,
        ptPINGREQ, ptPINGRESP, ptDISCONNECT]
    by_cases h12 : ptype = 12
    · subst h12
      simp [ptCONNECT, ptCONNACK, ptPUBLISH, ptPUBACK, ptPUBREC, ptPUBREL,
        ptPUBCOMP, ptSUBSCRIBE, ptSUBACK, ptUNSUBSCRIBE, ptUNSUBACK,
        ptPINGREQ, ptPINGRESP, ptDISCONNECT]
    by_cases h13 : ptype = 13
    · subst h13
      simp [ptCONNECT, ptCONNACK, ptPUBLISH, ptPUBACK, ptPUBREC, ptPUBREL,
        ptPUBCOMP, ptSUBSCRIBE, ptSUBACK, ptUNSUBSCRIBE, ptUNSUBACK,
        ptPINGREQ, ptPINGRESP, ptDISCONNECT]
    by_cases h14 : ptype = 14
    · subst h14
      simp [ptCONNECT, ptCONNACK, ptPUBLISH, ptPUBACK, ptPUBREC, ptPUBREL,
        ptPUBCOMP, ptSUBSCRIBE, ptSUBACK, ptUNSUBSCRIBE, ptUNSUBACK,
        ptPINGREQ, ptPINGRESP, ptDISCONNECT]
    simp [ptCONNECT, ptCONNACK, ptPUBLISH, ptPUBACK, ptPUBREC, ptPUBREL,
      ptPUBCOMP, ptSUBSCRIBE, ptSUBACK, ptUNSUBSCRIBE, ptUNSUBACK,
      ptPINGREQ, ptPINGRESP, ptDISCONNECT, h1, h2, h3, h4, h5, h6, h7, h8,
      h9, h10, h11, h12, h13, h14]
  · intro firstByte restBytes remLen afterLength hpr hshort
    have hlen : ¬ (firstByte :: restBytes).length < 2 := by
      cases restBytes with
      | nil => exact absurd rfl (hrest_ne [] remLen afterLength hpr)
      | cons b rest => simp
    rw [hstep, if_neg hlen, hpr]
    show (if afterLength.length < remLen then none
          else some (⟨firstByte / 16, firstByte % 16, afterLength.take remLen,
            remLen⟩ : MQTTPacket)) = none
    rw [if_pos hshort]
  · intro firstByte restBytes remLen afterLength hpr hlong
    have hlen : ¬ (firstByte :: restBytes).length < 2 := by
      cases restBytes with
      | nil => exact absurd rfl (hrest_ne [] remLen afterLength hpr)
      | cons b rest => simp
    rw [hstep, if_neg hlen, hpr]
    show (if afterLength.length < remLen then none
          else some (⟨firstByte / 16, firstByte % 16, afterLength.take remLen,
            remLen⟩ : MQTTPacket)) =
        some ⟨firstByte / 16, firstByte % 16, afterLength.take remLen, remLen⟩
    rw [if_neg (not_lt.mpr hlong)]

/-- C8 counterexample: `validatePacket` accepts a PUBREL whose
fixed-header flags are 0 (not the mandated 0b0010), and `parsePacket`
accepts the buffer `[0x30, 1, 0xAB, 0xCD]`, which declares a remaining
length of 1 but carries 2 further bytes, truncating instead of
rejecting. -/
theorem C8_counterexample :
    validatePacket ⟨6, 0, [0, 1], 2⟩ = true ∧
      parsePacket [48, 1, 171, 205] = some ⟨3, 0, [171], 1⟩ := by
  constructor
  · rfl
  · rfl

/-- C8 witness: the codec rules applied to the SUBSCRIBE packet
`[0x82, 2, 7, 8]` (type 8, flags 2, remaining length 2): its standard
flags are accepted and the buffer parses. -/
theorem C8_packet_validation_witness :
    parseRemainingLength [2, 7, 8] 1 0 = some (2, [7, 8]) ∧
    validatePacket ⟨8, 2, [7, 8], 2⟩ = true ∧
    parsePacket [130, 2, 7, 8] = some ⟨8, 2, [7, 8], 2⟩ :=
  ⟨rfl, by
    have h := C8_packet_validation 8 2 [7, 8] 2
    refine ⟨?_, ?_⟩
    · exact h.1.mpr (Or.inr (Or.inl ⟨Or.inl rfl, rfl⟩))
    · have h2 := h.2.2 130 [2, 7, 8] 2 [7, 8] rfl (by decide)
      simpa using h2⟩
